import Mathlib

set_option linter.unusedVariables false

/-!  Verification of the terminal email-body renderer of the matcha email
client (the code of view/html.go).  Go strings are modelled as lists of
characters.  External collaborators (goquery, goldmark, lipgloss, the OS and
the network) are modelled as oracle parameters; every function of the
repository itself is translated faithfully from the source. -/

/-- Strings of the Go program, modelled as lists of characters. -/
abbrev Str := List Char

/-- Go strings.HasPrefix: does the second list start with the first? -/
def startsWithStr : Str → Str → Bool
  | [], _ => true
  | _ :: _, [] => false
  | p :: ps, c :: cs => p == c && startsWithStr ps cs

/-- Go strings.Contains: does pat occur as a contiguous substring of s? -/
def containsSub (pat : Str) : Str → Bool
  | [] => pat.isEmpty
  | c :: cs => startsWithStr pat (c :: cs) || containsSub pat cs

/-- ASCII lower-casing of one character (Go strings.ToLower on ASCII data). -/
def lowerChar (c : Char) : Char :=
  if 'A' ≤ c ∧ c ≤ 'Z' then Char.ofNat (c.toNat + 32) else c

/-- Go strings.ToLower (the environment variables compared here are ASCII). -/
def lowerStr (s : Str) : Str := s.map lowerChar

/-- Go strings.TrimPrefix. -/
def dropPre (p s : Str) : Str :=
  if startsWithStr p s then s.drop p.length else s

/-- Go strings.HasSuffix. -/
def endsWithStr (p s : Str) : Bool := startsWithStr p.reverse s.reverse

/-- Go strings.TrimSuffix. -/
def dropSuf (p s : Str) : Str :=
  if endsWithStr p s then s.take (s.length - p.length) else s

/-- Characters trimmed by Go strings.TrimSpace (ASCII part: space, tab,
newline, vertical tab, form feed, carriage return). -/
def isSpaceGo (c : Char) : Bool := (" \t\n\x0b\x0c\r").toList.contains c

/-- Go strings.TrimSpace (the bodies handled here are ASCII). -/
def goTrimSpace (s : Str) : Str :=
  ((s.dropWhile isSpaceGo).reverse.dropWhile isSpaceGo).reverse

/-- Go strings.Trim with a cutset. -/
def goTrimSet (cut : Str) (s : Str) : Str :=
  ((s.dropWhile (cut.contains ·)).reverse.dropWhile (cut.contains ·)).reverse

/-- Go strings.Split on a single newline separator. -/
def splitNl : Str → List Str
  | [] => [[]]
  | c :: cs =>
    if c == '\n' then [] :: splitNl cs
    else
      match splitNl cs with
      | [] => [[c]]
      | h :: t => (c :: h) :: t

/-- Go strings.Join with a newline separator. -/
def joinLines : List Str → Str
  | [] => []
  | [l] => l
  | l :: ls => l ++ '\n' :: joinLines ls

/-- Decimal digit character for a one-digit value. -/
def digitChar (d : Nat) : Char :=
  match d with
  | 0 => '0' | 1 => '1' | 2 => '2' | 3 => '3' | 4 => '4'
  | 5 => '5' | 6 => '6' | 7 => '7' | 8 => '8' | _ => '9'

/-- Fuelled digit expansion; the fuel is always at least n + 1. -/
def natToStrAux : Nat → Nat → Str
  | 0, _ => []
  | fuel + 1, n =>
    if n < 10 then [digitChar n]
    else natToStrAux fuel (n / 10) ++ [digitChar (n % 10)]

/-- Decimal representation of a natural number, as fmt %d prints it. -/
def natToStr (n : Nat) : Str := natToStrAux (n + 1) n

/-- Numeric value of a decimal digit character. -/
def digitVal (c : Char) : Nat := c.toNat - 48

/-- Value of a decimal digit string. -/
def natOfDigits (ds : Str) : Nat := ds.foldl (fun a c => a * 10 + digitVal c) 0

/-- A run of n newline characters. -/
def newlines (n : Nat) : Str := List.replicate n '\n'

/-- Largest value of a 64-bit signed integer (Go int on the released targets). -/
def maxInt64 : Nat := 9223372036854775807

/-- Effect of fmt.Sscanf with verb %d on a decimal digit string: the value,
or none when it overflows the 64-bit int (Sscanf then reports an error and
leaves the argument untouched). -/
def parseIntGo (ds : Str) : Option Nat :=
  if natOfDigits ds ≤ maxInt64 then some (natOfDigits ds) else none

example : natToStr 407 = ('4' :: '0' :: '7' :: []) := by decide
example : natOfDigits (natToStr 90210) = 90210 := by decide
example : containsSub (("kitty").toList) (("xterm-kitty").toList) = true := by decide
example : goTrimSpace (("  a b ").toList) = ('a' :: ' ' :: 'b' :: []) := by decide
example : splitNl (("ab\n\nc").toList) = [('a' :: 'b' :: []), [], ('c' :: [])] := by decide

/-- Terminal-identifying environment variables read by the capability
detectors; os.Getenv yields the empty string for an unset variable. -/
structure Env where
  term : Str
  termProgram : Str
  kittyWindowId : Str
  ghosttyResourcesDir : Str
  itermSessionId : Str
  itermProfile : Str
  weztermExecutable : Str
  weztermConfigFile : Str
  warpIsLocalShellSession : Str
  warpCombinedPromptCommandFinished : Str
  konsoleDbusSession : Str
  konsoleVersion : Str
  vteVersion : Str

/-- kittySupported: TERM contains kitty, or KITTY_WINDOW_ID is set. -/
def kittySupported (e : Env) : Bool :=
  containsSub (("kitty").toList) (lowerStr e.term) || !e.kittyWindowId.isEmpty

/-- ghosttySupported: TERM contains ghostty, TERM_PROGRAM is exactly ghostty
(the source does not lower-case this one), or GHOSTTY_RESOURCES_DIR is set. -/
def ghosttySupported (e : Env) : Bool :=
  containsSub (("ghostty").toList) (lowerStr e.term) ||
  e.termProgram == ("ghostty").toList ||
  !e.ghosttyResourcesDir.isEmpty

/-- iterm2Supported. -/
def iterm2Supported (e : Env) : Bool :=
  lowerStr e.termProgram == ("iterm.app").toList ||
  !e.itermSessionId.isEmpty || !e.itermProfile.isEmpty

/-- weztermSupported. -/
def weztermSupported (e : Env) : Bool :=
  !e.weztermExecutable.isEmpty || !e.weztermConfigFile.isEmpty ||
  lowerStr e.termProgram == ("wezterm").toList ||
  containsSub (("wezterm").toList) (lowerStr e.term)

/-- waystSupported. -/
def waystSupported (e : Env) : Bool :=
  containsSub (("wayst").toList) (lowerStr e.term) ||
  lowerStr e.termProgram == ("wayst").toList

/-- warpSupported. -/
def warpSupported (e : Env) : Bool :=
  lowerStr e.termProgram == ("warp").toList ||
  !e.warpIsLocalShellSession.isEmpty || !e.warpCombinedPromptCommandFinished.isEmpty

/-- konsoleSupported. -/
def konsoleSupported (e : Env) : Bool :=
  !e.konsoleDbusSession.isEmpty || !e.konsoleVersion.isEmpty ||
  lowerStr e.termProgram == ("konsole").toList

/-- imageProtocolSupported: any of the seven detectors. -/
def imageProtocolSupported (e : Env) : Bool :=
  kittySupported e || ghosttySupported e || iterm2Supported e ||
  weztermSupported e || waystSupported e || warpSupported e || konsoleSupported e

/-- TERM substrings accepted by hyperlinkSupported. -/
def hyperlinkTerms : List Str :=
  [("kitty").toList, ("ghostty").toList, ("wezterm").toList, ("alacritty").toList,
   ("foot").toList, ("tmux").toList, ("screen").toList]

/-- TERM_PROGRAM substrings accepted by hyperlinkSupported. -/
def hyperlinkPrograms : List Str :=
  [("iterm.app").toList, ("hyper").toList, ("vscode").toList, ("ghostty").toList,
   ("wezterm").toList]

/-- hyperlinkSupported. -/
def hyperlinkSupported (e : Env) : Bool :=
  hyperlinkTerms.any (fun t => containsSub t (lowerStr e.term)) ||
  hyperlinkPrograms.any (fun t => containsSub t (lowerStr e.termProgram)) ||
  !e.vteVersion.isEmpty ||
  !e.kittyWindowId.isEmpty || !e.ghosttyResourcesDir.isEmpty ||
  !e.weztermExecutable.isEmpty

/-- hyperlink, with the hyperlinkSupported result passed in explicitly. -/
def hyperlinkB (supported : Bool) (url text0 : Str) : Str :=
  if supported then
    ("\x1b]8;;").toList ++ url ++ '\x07' ::
      (if text0 = [] then url else text0) ++ ("\x1b]8;;\x07").toList
  else if (if text0 = [] then url else text0) = url then
    ("&lt;").toList ++ url ++ ("&gt;").toList
  else
    (if text0 = [] then url else text0) ++ (" &lt;").toList ++ url ++
      ("&gt;").toList

/-- hyperlink as the source calls it, recomputing support from the
environment. -/
def hyperlink (e : Env) (url text : Str) : Str :=
  hyperlinkB (hyperlinkSupported e) url text

/-- getCellHeightFromFd, over the result of the TIOCGWINSZ ioctl modelled as
an optional pair (rows, ypixel); none is an ioctl error, 0 means failure. -/
def cellHFromWs : Option (Nat × Nat) → Nat
  | none => 0
  | some (row, ypix) =>
    if 0 < row ∧ 0 < ypix then
      if 0 < ypix / row then ypix / row else 0
    else 0

/-- getTerminalCellSize: stdout, stdin, stderr, then /dev/tty (whose open may
itself fail: the outer Option), defaulting to 18 pixels per cell. -/
def getTerminalCellSize (qOut qIn qErr : Option (Nat × Nat))
    (tty : Option (Option (Nat × Nat))) : Nat :=
  if 0 < cellHFromWs qOut then cellHFromWs qOut
  else if 0 < cellHFromWs qIn then cellHFromWs qIn
  else if 0 < cellHFromWs qErr then cellHFromWs qErr
  else
    match tty with
    | some ws => if 0 < cellHFromWs ws then cellHFromWs ws else 18
    | none => 18

/-- Row computation shared by both encoders; decoded is the pixel height when
both the base64 and the raster decode succeed, none otherwise. -/
def computeRows (decoded : Option Nat) (cellHeight : Nat) : Nat :=
  match decoded with
  | none => 1
  | some h =>
    let rows := (h + cellHeight - 1) / cellHeight
    if rows < 1 then 1 else rows

/-- imageRowPlaceholderPrefix of the source. -/
def imgRowsPre : Str := ("[[MATCHA_IMG_ROWS:").toList

/-- Closing bracket pair of both placeholder forms. -/
def closeBr : Str := ("]]").toList

/-- A complete image-row placeholder. -/
def imgMark (rows : Nat) : Str := imgRowsPre ++ natToStr rows ++ closeBr

/-- First-chunk directive header of the Kitty graphics escape. -/
def kittyHdr1 : Str := ("\x1b_Gf=100,a=T,q=2,C=1,m=").toList

/-- Continuation-chunk header of the Kitty graphics escape. -/
def kittyHdr2 : Str := ("\x1b_Gm=").toList

/-- Closing frame of one Kitty graphics escape. -/
def escEnd : Str := ("\x1b\\").toList

/-- Chunking loop of kittyInlineImage (the offset loop of the source); the
fuel is always at least the length of the remaining payload. -/
def kittyLoop : Nat → Bool → Str → Str
  | 0, _, _ => []
  | _, _, [] => []
  | fuel + 1, isFirst, p =>
    let chunk := p.take 4096
    let rest := p.drop 4096
    let more : Char := if rest = [] then '0' else '1'
    (if isFirst then kittyHdr1 else kittyHdr2) ++ more :: ';' :: chunk ++ escEnd ++
      kittyLoop fuel false rest

/-- kittyInlineImage; decoded and cellHeight stand for the image decode and
the getTerminalCellSize query made inside the function. -/
def kittyInlineImage (decoded : Str → Option Nat) (cellHeight : Nat)
    (payload : Str) : Str :=
  if payload = [] then []
  else
    kittyLoop payload.length true payload ++
      '\n' :: imgMark (computeRows (decoded payload) cellHeight) ++ ('\n' :: [])

/-- iterm2InlineImage. -/
def iterm2InlineImage (decoded : Str → Option Nat) (cellHeight : Nat)
    (payload : Str) : Str :=
  if payload = [] then []
  else
    ("\x1b]1337;File=inline=1:").toList ++ payload ++ '\x07' :: '\n' ::
      imgMark (computeRows (decoded payload) cellHeight) ++ ('\n' :: [])

/-- renderInlineImage: protocol dispatch between the two encoders. -/
def renderInlineImage (e : Env) (decoded : Str → Option Nat) (cellHeight : Nat)
    (payload : Str) : Str :=
  if payload = [] then []
  else if kittySupported e || ghosttySupported e || weztermSupported e ||
      waystSupported e || konsoleSupported e then
    kittyInlineImage decoded cellHeight payload
  else if iterm2Supported e || warpSupported e then
    iterm2InlineImage decoded cellHeight payload
  else []

/-- dataURIBase64: the base64 portion after the first comma. -/
def dataURIBase64 (uri : Str) : Str :=
  if !startsWithStr (("data:").toList) uri then []
  else
    match uri.dropWhile (fun c => !(c == ',')) with
    | [] => []
    | [_] => []
    | _ :: t => t

/-- One regexp.ReplaceAllStringFunc pass for a marker of the shape
pre ++ digit-group ++ closing bracket pair, which is the shape of both
placeholder regexes of the source; handle receives the digit group and the
scan resumes after the match, as Go replaces leftmost non-overlapping
matches.  The fuel is always at least the length of the text. -/
def scanMarkers (pre : Str) (handle : Str → Str) : Nat → Str → Str
  | 0, _ => []
  | _, [] => []
  | fuel + 1, c :: rest =>
    if startsWithStr pre (c :: rest) then
      if ((c :: rest).drop pre.length).takeWhile Char.isDigit ≠ [] ∧
          startsWithStr closeBr (((c :: rest).drop pre.length).dropWhile Char.isDigit) then
        handle (((c :: rest).drop pre.length).takeWhile Char.isDigit) ++
          scanMarkers pre handle fuel
            ((((c :: rest).drop pre.length).dropWhile Char.isDigit).drop 2)
      else c :: scanMarkers pre handle fuel rest
    else c :: scanMarkers pre handle fuel rest

/-- Row count recovered from the digit group of a matched placeholder. -/
def rowsOfDigits (ds : Str) : Nat :=
  match parseIntGo ds with
  | none => 1
  | some v => if v < 1 then 1 else v

/-- expandImageRowPlaceholders. -/
def expandImageRowPlaceholders (text : Str) : Str :=
  scanMarkers imgRowsPre (fun ds => newlines (rowsOfDigits ds)) text.length text

/-- Quote records collected by the blockquote pass of processBody. -/
structure QuoteRec where
  qFrom : Str
  qDate : Str
  qContent : Str
deriving DecidableEq

/-- Header line of renderQuoteBox: sender and date joined by two spaces when
both are known, else whichever is known, else empty. -/
def quoteBoxHeader (headerR : Str → Str) (qfrom qdate : Str) : Str :=
  if qfrom ≠ [] ∨ qdate ≠ [] then
    if qfrom ≠ [] ∧ qdate ≠ [] then headerR (qfrom ++ ' ' :: ' ' :: qdate)
    else if qfrom ≠ [] then headerR qfrom
    else headerR qdate
  else []

/-- Box content of renderQuoteBox: the header, a blank line and the joined
content, or the content alone when the header is empty. -/
def quoteBoxContent (header content : Str) : Str :=
  if header ≠ [] then header ++ '\n' :: '\n' :: content else content

/-- renderQuoteBox; headerR and boxR are the two lipgloss style renderers
(quoteHeaderStyle.Render and quoteBoxStyle.Render). -/
def renderQuoteBox (headerR boxR : Str → Str) (qfrom qdate : Str)
    (ls : List Str) : Str :=
  boxR (quoteBoxContent (quoteBoxHeader headerR qfrom qdate) (joinLines ls))

/-- Opening text of a quote placeholder. -/
def quotePre : Str := ("[[MATCHA_QUOTE:").toList

/-- Quote-placeholder resolution pass of processBody: a valid index is
rendered, anything else returns the match unchanged.  The index is the
Sscanf %d result, 0 when parsing fails. -/
def resolveQuotePlaceholders (headerR boxR : Str → Str)
    (quoteData : List QuoteRec) (text : Str) : Str :=
  scanMarkers quotePre
    (fun ds =>
      let idx := (parseIntGo ds).getD 0
      match quoteData.get? idx with
      | some q => renderQuoteBox headerR boxR q.qFrom q.qDate (splitNl q.qContent)
      | none => quotePre ++ ds ++ closeBr)
    text.length text

/-- Regexp pass collapsing every run of three or more newlines to two; the
fuel is always at least the length of the text. -/
def collapseNl : Nat → Str → Str
  | 0, _ => []
  | _, [] => []
  | fuel + 1, c :: rest =>
    if c == '\n' then
      if 2 ≤ (rest.takeWhile (fun d => d == '\n')).length then
        '\n' :: '\n' :: collapseNl fuel (rest.dropWhile (fun d => d == '\n'))
      else c :: collapseNl fuel rest
    else c :: collapseNl fuel rest

example :
    expandImageRowPlaceholders (("a[[MATCHA_IMG_ROWS:3]]b").toList) =
      ('a' :: '\n' :: '\n' :: '\n' :: 'b' :: []) := by decide
example :
    collapseNl 7 (("a\n\n\n\nb").toList) = ('a' :: '\n' :: '\n' :: 'b' :: []) := by
  decide

/-- Whitespace class of the RE2 pattern element backslash-s:
tab, newline, form feed, carriage return and space. -/
def isWsRe (c : Char) : Bool := ("\t\n\x0c\r ").toList.contains c

/-- Length of the leading RE2-whitespace run. -/
def wsRunLen (s : Str) : Nat := (s.takeWhile isWsRe).length

/-- Backtracking of one greedy whitespace-plus element: consume k leading
characters (the caller bounds k by the whitespace-run length), longest run
first, at least one character. -/
def tryDrops {α : Type} (f : Str → Option α) (t : Str) : Nat → Option α
  | 0 => none
  | k + 1 =>
    match f (t.drop (k + 1)) with
    | some r => some r
    | none => tryDrops f t k

/-- Does the remainder consist of a nonempty whitespace run followed by
exactly the literal wrote-colon text, ending the line? -/
def wsThenWrote (r : Str) : Bool :=
  !(r.takeWhile isWsRe).isEmpty && r.dropWhile isWsRe == ("wrote:").toList

/-- Lazy tail group of the quote-header pattern: the shortest nonempty
prefix whose remainder passes wsThenWrote. -/
def matchBWrote : Str → Option Str
  | [] => none
  | c :: rest =>
    if wsThenWrote rest then some [c]
    else (matchBWrote rest).map (fun b => c :: b)

/-- Comma, greedy whitespace-plus, then the lazy tail group. -/
def matchAfterComma : Str → Option Str
  | ',' :: r2 => tryDrops matchBWrote r2 (wsRunLen r2)
  | _ => none

/-- Lazy first group of the quote-header pattern: the shortest nonempty
prefix followed by a comma match. -/
def matchA : Str → Option (Str × Str)
  | [] => none
  | c :: rest =>
    match matchAfterComma rest with
    | some b => some ([c], b)
    | none => (matchA rest).map (fun p => (c :: p.1, p.2))

/-- Matcher for the anchored onWroteRegex of the source, with the leftmost
greedy/lazy priority order of Go RE2 (the input lines carry no newline, so
the dot element matches every character); returns the two captured groups:
the raw date text and the sender text. -/
def matchOnWrote (line : Str) : Option (Str × Str) :=
  match line with
  | 'O' :: 'n' :: t => tryDrops matchA t (wsRunLen t)
  | _ => none

example :
    matchOnWrote (("On Jan 2, 2006 at 3:04 PM, alice@x.com wrote:").toList) =
      some ((("Jan 2").toList), (("2006 at 3:04 PM, alice@x.com").toList)) := by
  decide

/-- Layout elements of the reference layouts tried by parseDateForDisplay. -/
inductive LElem where
  | lit (s : Str)
  | monthAbbr
  | monthFull
  | monthNum2
  | dayNum
  | dayNum2
  | year4
  | year2
  | hour24
  | hour12
  | min2
  | sec2
  | ampm
  | zoneOff
  | zoneAbbr
  | weekdayAbbr

/-- Broken-down time collected by Go time.Parse; pm records an AM or PM
element.  The unparsed fields keep the Go zero-time defaults. -/
structure GoDate where
  year : Nat
  month : Nat
  day : Nat
  hour : Nat
  minute : Nat
  second : Nat
  pm : Option Bool
deriving DecidableEq

/-- Zero value of the broken-down time (January 1, year 0). -/
def zeroDate : GoDate := ⟨0, 1, 1, 0, 0, 0, none⟩

/-- Month abbreviations, as Go time.Parse looks them up. -/
def monthAbbrNames : List (Str × Nat) :=
  [(("Jan").toList, 1), (("Feb").toList, 2), (("Mar").toList, 3),
   (("Apr").toList, 4), (("May").toList, 5), (("Jun").toList, 6),
   (("Jul").toList, 7), (("Aug").toList, 8), (("Sep").toList, 9),
   (("Oct").toList, 10), (("Nov").toList, 11), (("Dec").toList, 12)]

/-- Full month names. -/
def monthFullNames : List (Str × Nat) :=
  [(("January").toList, 1), (("February").toList, 2), (("March").toList, 3),
   (("April").toList, 4), (("May").toList, 5), (("June").toList, 6),
   (("July").toList, 7), (("August").toList, 8), (("September").toList, 9),
   (("October").toList, 10), (("November").toList, 11), (("December").toList, 12)]

/-- Weekday abbreviations (parsed and then ignored by Go time.Parse). -/
def weekdayAbbrNames : List Str :=
  [("Sun").toList, ("Mon").toList, ("Tue").toList, ("Wed").toList,
   ("Thu").toList, ("Fri").toList, ("Sat").toList]

/-- Name lookup of Go time.Parse: ASCII-case-insensitive prefix match. -/
def lookupName (names : List (Str × Nat)) (v : Str) : Option (Nat × Str) :=
  match names with
  | [] => none
  | (n, k) :: rest =>
    if startsWithStr (lowerStr n) (lowerStr v) then some (k, v.drop n.length)
    else lookupName rest v

/-- Weekday-name lookup. -/
def lookupWeekday (names : List Str) (v : Str) : Option Str :=
  match names with
  | [] => none
  | n :: rest =>
    if startsWithStr (lowerStr n) (lowerStr v) then some (v.drop n.length)
    else lookupWeekday rest v

/-- Go getnum: one or two digits when fixed is false, exactly two otherwise. -/
def getnum (fixed : Bool) (v : Str) : Option (Nat × Str) :=
  match v with
  | c1 :: c2 :: rest =>
    if c1.isDigit then
      if c2.isDigit then some (digitVal c1 * 10 + digitVal c2, rest)
      else if fixed then none else some (digitVal c1, c2 :: rest)
    else none
  | [c1] => if c1.isDigit && !fixed then some (digitVal c1, []) else none
  | [] => none

/-- Four-digit year of Go time.Parse. -/
def getnum4 (v : Str) : Option (Nat × Str) :=
  match v with
  | a :: b :: c :: d :: rest =>
    if a.isDigit && b.isDigit && c.isDigit && d.isDigit then
      some (((digitVal a * 10 + digitVal b) * 10 + digitVal c) * 10 + digitVal d, rest)
    else none
  | _ => none

/-- Numeric zone offset, sign plus four digits; its value never reaches the
displayed fields, so only its shape is checked. -/
def getZoneOff (v : Str) : Option Str :=
  match v with
  | s :: a :: b :: c :: d :: rest =>
    if (s == '+' || s == '-') && a.isDigit && b.isDigit && c.isDigit && d.isDigit then
      some rest
    else none
  | _ => none

/-- Alphabetic zone abbreviation, simplified to a run of at least three
ASCII upper-case letters (no theorem below exercises a successful zone
parse; every failing layout fails before this element). -/
def getZoneAbbr (v : Str) : Option Str :=
  let run := v.takeWhile (fun c => 'A' ≤ c && c ≤ 'Z')
  if 3 ≤ run.length then some (v.drop run.length) else none

/-- AM and PM marker of layouts written with the upper-case PM element. -/
def getAmPm (v : Str) : Option (Bool × Str) :=
  match v with
  | 'P' :: 'M' :: rest => some (true, rest)
  | 'A' :: 'M' :: rest => some (false, rest)
  | _ => none

/-- One layout element of Go time.Parse, with the immediate range checks the
Go parser performs. -/
def parseElem (d : GoDate) (el : LElem) (v : Str) : Option (GoDate × Str) :=
  match el with
  | .lit s => if startsWithStr s v then some (d, v.drop s.length) else none
  | .monthAbbr =>
    (lookupName monthAbbrNames v).map (fun p => ({d with month := p.1}, p.2))
  | .monthFull =>
    (lookupName monthFullNames v).map (fun p => ({d with month := p.1}, p.2))
  | .monthNum2 =>
    (getnum true v).bind (fun p =>
      if 1 ≤ p.1 ∧ p.1 ≤ 12 then some ({d with month := p.1}, p.2) else none)
  | .dayNum =>
    (getnum false v).map (fun p => ({d with day := p.1}, p.2))
  | .dayNum2 =>
    (getnum true v).map (fun p => ({d with day := p.1}, p.2))
  | .year4 =>
    (getnum4 v).map (fun p => ({d with year := p.1}, p.2))
  | .year2 =>
    (getnum true v).map (fun p =>
      ({d with year := if 69 ≤ p.1 then 1900 + p.1 else 2000 + p.1}, p.2))
  | .hour24 =>
    (getnum false v).bind (fun p =>
      if p.1 ≤ 23 then some ({d with hour := p.1}, p.2) else none)
  | .hour12 =>
    (getnum false v).bind (fun p =>
      if p.1 ≤ 12 then some ({d with hour := p.1}, p.2) else none)
  | .min2 =>
    (getnum true v).bind (fun p =>
      if p.1 ≤ 59 then some ({d with minute := p.1}, p.2) else none)
  | .sec2 =>
    (getnum true v).bind (fun p =>
      if p.1 ≤ 59 then some ({d with second := p.1}, p.2) else none)
  | .ampm =>
    (getAmPm v).map (fun p => ({d with pm := some p.1}, p.2))
  | .zoneOff => (getZoneOff v).map (fun r => (d, r))
  | .zoneAbbr => (getZoneAbbr v).map (fun r => (d, r))
  | .weekdayAbbr => (lookupWeekday weekdayAbbrNames v).map (fun r => (d, r))

/-- Whole-layout parse; Go rejects any unconsumed trailing text. -/
def parseLayout : GoDate → List LElem → Str → Option GoDate
  | d, [], v => if v = [] then some d else none
  | d, el :: els, v =>
    match parseElem d el v with
    | some p => parseLayout p.1 els p.2
    | none => none

/-- Days in a month, with the Gregorian leap rule, as Go daysIn. -/
def daysInMonth (year month : Nat) : Nat :=
  if month = 2 then
    if year % 4 = 0 ∧ (year % 100 ≠ 0 ∨ year % 400 = 0) then 29 else 28
  else if month = 4 ∨ month = 6 ∨ month = 9 ∨ month = 11 then 30
  else 31

/-- Final fixups of Go time.Parse: the twelve-hour clock conversion and the
day-of-month validation. -/
def finishParse (d : GoDate) : Option GoDate :=
  let hour :=
    match d.pm with
    | some true => if d.hour < 12 then d.hour + 12 else d.hour
    | some false => if d.hour == 12 then 0 else d.hour
    | none => d.hour
  if 1 ≤ d.day ∧ d.day ≤ daysInMonth d.year d.month then
    some {d with hour := hour}
  else none

/-- Two-digit zero-padded field of the display format. -/
def pad2 (n : Nat) : Str := if n < 10 then '0' :: [digitChar n] else natToStr n

/-- Formatting with the display layout of parseDateForDisplay. -/
def formatDisplay (d : GoDate) : Str :=
  pad2 d.day ++ ':' :: pad2 d.month ++ ':' :: pad2 (d.year % 100) ++ ' ' ::
    pad2 d.hour ++ ':' :: pad2 d.minute

/-- Reference layouts of parseDateForDisplay, element by element. -/
def displayLayouts : List (List LElem) :=
  [ [.monthAbbr, .lit ((" ").toList), .dayNum, .lit ((", ").toList), .year4,
     .lit ((" at ").toList), .hour12, .lit ((":").toList), .min2,
     .lit ((" ").toList), .ampm],
    [.dayNum2, .lit ((":").toList), .monthNum2, .lit ((":").toList), .year2,
     .lit ((" ").toList), .hour24, .lit ((":").toList), .min2],
    [.year4, .lit (("-").toList), .monthNum2, .lit (("-").toList), .dayNum2,
     .lit ((" ").toList), .hour24, .lit ((":").toList), .min2,
     .lit ((":").toList), .sec2],
    [.weekdayAbbr, .lit ((", ").toList), .dayNum2, .lit ((" ").toList),
     .monthAbbr, .lit ((" ").toList), .year4, .lit ((" ").toList), .hour24,
     .lit ((":").toList), .min2, .lit ((":").toList), .sec2,
     .lit ((" ").toList), .zoneOff],
    [.weekdayAbbr, .lit ((", ").toList), .dayNum, .lit ((" ").toList),
     .monthAbbr, .lit ((" ").toList), .year4, .lit ((" ").toList), .hour24,
     .lit ((":").toList), .min2, .lit ((":").toList), .sec2,
     .lit ((" ").toList), .zoneOff],
    [.dayNum, .lit ((" ").toList), .monthAbbr, .lit ((" ").toList), .year4,
     .lit ((" ").toList), .hour24, .lit ((":").toList), .min2,
     .lit ((":").toList), .sec2],
    [.monthFull, .lit ((" ").toList), .dayNum, .lit ((", ").toList), .year4,
     .lit ((" at ").toList), .hour12, .lit ((":").toList), .min2,
     .lit ((" ").toList), .ampm],
    [.monthAbbr, .lit ((" ").toList), .dayNum, .lit ((", ").toList), .year4,
     .lit ((" ").toList), .hour12, .lit ((":").toList), .min2,
     .lit ((" ").toList), .ampm],
    [.weekdayAbbr, .lit ((", ").toList), .dayNum2, .lit ((" ").toList),
     .monthAbbr, .lit ((" ").toList), .year4, .lit ((" ").toList), .hour24,
     .lit ((":").toList), .min2, .lit ((":").toList), .sec2,
     .lit ((" ").toList), .zoneOff],
    [.weekdayAbbr, .lit ((", ").toList), .dayNum2, .lit ((" ").toList),
     .monthAbbr, .lit ((" ").toList), .year4, .lit ((" ").toList), .hour24,
     .lit ((":").toList), .min2, .lit ((":").toList), .sec2,
     .lit ((" ").toList), .zoneAbbr],
    [.dayNum2, .lit ((" ").toList), .monthAbbr, .lit ((" ").toList), .year2,
     .lit ((" ").toList), .hour24, .lit ((":").toList), .min2,
     .lit ((" ").toList), .zoneOff],
    [.dayNum2, .lit ((" ").toList), .monthAbbr, .lit ((" ").toList), .year2,
     .lit ((" ").toList), .hour24, .lit ((":").toList), .min2,
     .lit ((" ").toList), .zoneAbbr] ]

/-- First layout that parses. -/
def tryLayouts : List (List LElem) → Str → Option GoDate
  | [], _ => none
  | l :: ls, v =>
    match (parseLayout zeroDate l v).bind finishParse with
    | some d => some d
    | none => tryLayouts ls v

/-- parseDateForDisplay: reformat through the first matching layout, or
return the input unchanged. -/
def parseDateForDisplay (dateStr : Str) : Str :=
  match tryLayouts displayLayouts dateStr with
  | some d => formatDisplay d
  | none => dateStr

example :
    parseDateForDisplay (("Jan 2, 2006 at 3:04 PM").toList) =
      (("02:01:06 15:04").toList) := by decide
example : parseDateForDisplay (("Jan 2").toList) = (("Jan 2").toList) := by decide

/-- Strip of a quoted line: the leading angle mark, then one space. -/
def stripQuoteMark (t : Str) : Str :=
  dropPre ((" ").toList) (dropPre ((">").toList) t)

/-- Lookahead of the styleQuotedReplies loop: does the next line, trimmed,
start with the quote mark? -/
def nextIsQuote : List Str → Bool
  | r :: _ => startsWithStr ((">").toList) (goTrimSpace r)
  | [] => false

/-- State of the styleQuotedReplies line machine. -/
structure SQRSt where
  inQuote : Bool
  qFrom : Str
  qDate : Str
  block : List Str

/-- Loop of styleQuotedReplies, translated line by line from the source;
returns the result lines. -/
def sqrLoop (headerR boxR : Str → Str) : SQRSt → List Str → List Str
  | st, [] =>
    if st.inQuote ∧ st.block ≠ [] then
      [renderQuoteBox headerR boxR st.qFrom st.qDate st.block]
    else []
  | st, l :: rest =>
    let t := goTrimSpace l
    match matchOnWrote t with
    | some g =>
      (if st.inQuote ∧ st.block ≠ [] then
        [renderQuoteBox headerR boxR st.qFrom st.qDate st.block]
      else []) ++
        sqrLoop headerR boxR
          ⟨true, g.2, parseDateForDisplay g.1,
            if st.inQuote ∧ st.block ≠ [] then [] else st.block⟩ rest
    | none =>
      if startsWithStr ((">").toList) t then
        sqrLoop headerR boxR
          ⟨true, (if st.inQuote then st.qFrom else []),
            (if st.inQuote then st.qDate else []),
            st.block ++ [stripQuoteMark t]⟩ rest
      else if st.inQuote then
        if t = [] ∧ nextIsQuote rest then
          sqrLoop headerR boxR
            ⟨st.inQuote, st.qFrom, st.qDate, st.block ++ [[]]⟩ rest
        else if t = [] ∧ st.block = [] then
          sqrLoop headerR boxR st rest
        else
          (if st.block ≠ [] then
            [renderQuoteBox headerR boxR st.qFrom st.qDate st.block]
          else []) ++ l :: sqrLoop headerR boxR ⟨false, [], [], []⟩ rest
      else l :: sqrLoop headerR boxR st rest

/-- styleQuotedReplies. -/
def styleQuotedReplies (headerR boxR : Str → Str) (text : Str) : Str :=
  joinLines (sqrLoop headerR boxR ⟨false, [], [], []⟩ (splitNl text))

/-- Default alt text of the source. -/
def defaultAlt : Str := ("Does not contain alt text").toList

/-- Payload resolution of the img closure of processBody: data URI, cid
lookup in the caller map (none for the plain ProcessBody entry point), or
remote fetch (an oracle returning the empty string on any network, decode or
re-encode failure). -/
def imgPayload (fetch : Str → Str) (inline : Option (Str → Str))
    (src : Str) : Str :=
  if startsWithStr (("data:image/").toList) src then dataURIBase64 src
  else if startsWithStr (("cid:").toList) src then
    match inline with
    | some m => m (goTrimSet (("<>").toList) (dropPre (("cid:").toList) src))
    | none => []
  else if startsWithStr (("http://").toList) src ||
      startsWithStr (("https://").toList) src then fetch src
  else []

/-- Image splice of the img closure: with images enabled and a protocol
detected, a nonempty payload whose renderer output is nonempty is spliced in
wrapped in newlines; every other case falls through to the fallback. -/
def imgSpliced (e : Env) (decoded : Str → Option Nat) (cellHeight : Nat)
    (fetch : Str → Str) (inline : Option (Str → Str)) (disableImages : Bool)
    (src : Str) : Str :=
  if !disableImages && imageProtocolSupported e then
    if imgPayload fetch inline src ≠ [] then
      if renderInlineImage e decoded cellHeight (imgPayload fetch inline src) ≠ [] then
        '\n' :: renderInlineImage e decoded cellHeight (imgPayload fetch inline src) ++
          ('\n' :: [])
      else []
    else []
  else []

/-- Textual fallback of the img closure: a clickable line when hyperlinks
are supported, else the plain bracketed line. -/
def imgFallback (e : Env) (src alt0 : Str) : Str :=
  if hyperlinkSupported e then
    hyperlink e src
      ('\n' :: (" [Click here to view image: ").toList ++
        (if alt0 = [] then defaultAlt else alt0) ++ ("] \n").toList)
  else
    '\n' :: (" [Image: ").toList ++ (if alt0 = [] then defaultAlt else alt0) ++
      (", ").toList ++ src ++ ("] \n").toList

/-- Replacement computed by the img closure of processBody for one img
element: src and alt0 are the element attributes (alt0 empty when the
attribute is missing); decoded and cellHeight are the image-decode and
cell-size collaborators of the encoders. -/
def imgProcess (e : Env) (decoded : Str → Option Nat) (cellHeight : Nat)
    (fetch : Str → Str) (inline : Option (Str → Str)) (disableImages : Bool)
    (src alt0 : Str) : Str :=
  if imgSpliced e decoded cellHeight fetch inline disableImages src ≠ [] then
    imgSpliced e decoded cellHeight fetch inline disableImages src
  else imgFallback e src alt0

/-- InlineImage of the source. -/
structure InlineImage where
  cid : Str
  base64 : Str

/-- Map construction of ProcessBodyWithInline: trim the key, strip one
leading angle bracket, one trailing angle bracket and the cid scheme, skip
empty keys and empty payloads; a Go map assignment overwrites, so a later
entry wins over an earlier one with the same key, and an absent key reads
as the empty string. -/
def buildInlineMap : List InlineImage → (Str → Str)
  | [] => fun _ => []
  | img :: rest =>
    let cid := dropPre (("cid:").toList)
      (dropSuf ((">").toList) (dropPre (("<").toList) (goTrimSpace img.cid)))
    let m := buildInlineMap rest
    if cid = [] ∨ img.base64 = [] then m
    else fun k => if m k = [] ∧ k = cid then img.base64 else m k

/-- External collaborators of processBody: the quoted-printable reader (none
for a decode error), the goldmark converter (none for a convert error), the
goquery parser, the text and the quote records read off the transformed
document, and the three lipgloss style renderers.  Doc is the abstract
parsed-document type of goquery. -/
structure ExtC (Doc : Type) where
  qp : Str → Option Str
  md : Str → Option Str
  parseDoc : Str → Except Str Doc
  docText : Doc → Str
  quotes : Doc → List QuoteRec
  headerR : Str → Str
  boxR : Str → Str
  bodyR : Str → Str

/-- markdownToHTML: goldmark conversion with fallback to the input. -/
def markdownToHTML (md : Str → Option Str) (s : Str) : Str := (md s).getD s

/-- Error prefix of the one fatal error of processBody. -/
def parseErrPre : Str := ("could not parse email body: ").toList

/-- processBody: transport decode with fallback to the raw body, markdown
conversion with fallback to its input, document parse (the one fatal
error), then the text passes in source order: newline collapsing, image-row
expansion, quote-placeholder resolution, the plain-text quote pass and the
body style.  Both public entry points delegate here, differing only in the
inline-image map consumed by the document transformations. -/
def processBody {Doc : Type} (ext : ExtC Doc) (raw : Str) : Except Str Str :=
  match ext.parseDoc (markdownToHTML ext.md ((ext.qp raw).getD raw)) with
  | .error e => .error (parseErrPre ++ e)
  | .ok doc =>
    .ok (ext.bodyR (styleQuotedReplies ext.headerR ext.boxR
      (resolveQuotePlaceholders ext.headerR ext.boxR (ext.quotes doc)
        (expandImageRowPlaceholders
          (collapseNl (ext.docText doc).length (ext.docText doc))))))

/-- Claim-side splitting into consecutive 4096-character chunks; the fuel is
at least the length of the payload. -/
def chunksOf4096 : Nat → Str → List Str
  | 0, _ => []
  | _, [] => []
  | fuel + 1, p => p.take 4096 :: chunksOf4096 fuel (p.drop 4096)

/-- Chunk list of a payload. -/
def chunks (p : Str) : List Str := chunksOf4096 p.length p

/-- Claim-side continuation frames: each carries only the m flag, 0 on the
final chunk, and the Kitty escape framing. -/
def contFrames : List Str → Str
  | [] => []
  | c :: cs =>
    kittyHdr2 ++ (if cs = [] then '0' else '1') :: ';' :: c ++ escEnd ++ contFrames cs

/-- Claim-side frame rendering: the first chunk carries the display
directives and an m flag equal to 1 exactly when more chunks follow. -/
def framesRender : List Str → Str
  | [] => []
  | c :: cs =>
    kittyHdr1 ++ (if cs = [] then '0' else '1') :: ';' :: c ++ escEnd ++ contFrames cs

/-- Claim-side protocol names. -/
inductive ImgProto where
  | kittyP
  | itermP
  | noneP
deriving DecidableEq

/-- Claim-side dispatch: the Kitty family group is checked before the iTerm2
family group, and no match means no encoder. -/
def encoderChoice (e : Env) : ImgProto :=
  if kittySupported e || ghosttySupported e || weztermSupported e ||
      waystSupported e || konsoleSupported e then .kittyP
  else if iterm2Supported e || warpSupported e then .itermP
  else .noneP

/-- Claim-side ceiling division. -/
def ceilDivSpec (h ch : Nat) : Nat := h / ch + (if h % ch = 0 then 0 else 1)

/-- Does the string start with the capital letter of the Image fallback? -/
def headIsI (s : Str) : Bool := s.head? == some 'I'

/-- Scanning check: no open bracket immediately followed by a capital I
anywhere in the string; this rules out the textual image fallback as a
substring. -/
def noLI : Str → Bool
  | [] => true
  | c :: rest => !(c == '[' && headIsI rest) && noLI rest

theorem headIsI_cons (c : Char) (l : Str) : headIsI (c :: l) = (c == 'I') := by
  simp [headIsI]

theorem noLI_cons (c : Char) (l : Str) :
    noLI (c :: l) = (!(c == '[' && headIsI l) && noLI l) := rfl

theorem noLI_tail {c : Char} {l : Str} (h : noLI (c :: l) = true) : noLI l = true := by
  rw [noLI_cons, Bool.and_eq_true] at h
  exact h.2

theorem noLI_drop_left {w : Str} (u : Str) (h : noLI (u ++ w) = true) :
    noLI w = true := by
  induction u with
  | nil => exact h
  | cons c cs ih => exact ih (noLI_tail h)

theorem noLI_not_infix {s : Str} (t : Str) (h : noLI s = true) :
    ¬ (('[' :: 'I' :: t) <:+: s) := by
  rintro ⟨u, v, huv⟩
  rw [← huv, List.append_assoc] at h
  have h2 := noLI_drop_left u h
  simp only [List.cons_append] at h2
  rw [noLI_cons, headIsI_cons] at h2
  simp at h2

theorem noLI_append {x y : Str} (hx : noLI x = true) (hy : noLI y = true)
    (hh : headIsI y = false) : noLI (x ++ y) = true := by
  induction x with
  | nil => exact hy
  | cons c cs ih =>
    have hcs := ih (noLI_tail hx)
    rw [List.cons_append, noLI_cons, Bool.and_eq_true]
    refine ⟨?_, hcs⟩
    cases cs with
    | nil => simp [hh]
    | cons d ds =>
      rw [noLI_cons, Bool.and_eq_true] at hx
      simpa [headIsI_cons] using hx.1

theorem noLI_of_no_bracket {s : Str} (h : ∀ c ∈ s, c ≠ '[') : noLI s = true := by
  induction s with
  | nil => rfl
  | cons c cs ih =>
    rw [noLI_cons, Bool.and_eq_true]
    refine ⟨?_, ih (fun d hd => h d (List.mem_cons_of_mem c hd))⟩
    have : c ≠ '[' := h c (List.mem_cons_self c cs)
    simp [this]

theorem headIsI_of_digits {s : Str} (h : ∀ c ∈ s, c.isDigit = true) :
    headIsI s = false := by
  cases s with
  | nil => rfl
  | cons c cs =>
    have := h c (List.mem_cons_self c cs)
    rw [headIsI_cons]
    by_contra hc
    simp at hc
    subst hc
    simp at this

theorem digitChar_isDigit (d : Nat) : (digitChar d).isDigit = true := by
  unfold digitChar
  split <;> decide

theorem isDigit_ne_bracket {c : Char} (h : c.isDigit = true) : c ≠ '[' := by
  intro hc; subst hc; simp at h

theorem natToStrAux_digits {fuel : Nat} :
    ∀ {n : Nat}, ∀ c ∈ natToStrAux fuel n, c.isDigit = true := by
  induction fuel with
  | zero => intro n c hc; simp [natToStrAux] at hc
  | succ f ih =>
    intro n c hc
    unfold natToStrAux at hc
    by_cases h10 : n < 10
    · simp [h10] at hc
      subst hc
      exact digitChar_isDigit n
    · simp [h10] at hc
      rcases hc with hc | hc
      · exact ih c hc
      · subst hc; exact digitChar_isDigit (n % 10)

theorem natToStr_digits {n : Nat} : ∀ c ∈ natToStr n, c.isDigit = true :=
  natToStrAux_digits

theorem natToStrAux_ne_nil {fuel n : Nat} (h : n < fuel) :
    natToStrAux fuel n ≠ [] := by
  cases fuel with
  | zero => omega
  | succ f =>
    unfold natToStrAux
    by_cases h10 : n < 10 <;> simp [h10]

theorem natToStr_ne_nil (n : Nat) : natToStr n ≠ [] :=
  natToStrAux_ne_nil (Nat.lt_succ_self n)

theorem digitVal_digitChar {d : Nat} (h : d < 10) : digitVal (digitChar d) = d := by
  interval_cases d <;> decide

theorem natOfDigits_snoc (a : Str) (c : Char) :
    natOfDigits (a ++ [c]) = natOfDigits a * 10 + digitVal c := by
  simp [natOfDigits, List.foldl_append]

theorem natOfDigits_natToStrAux {fuel : Nat} :
    ∀ {n : Nat}, n < fuel → natOfDigits (natToStrAux fuel n) = n := by
  induction fuel with
  | zero => intro n h; omega
  | succ f ih =>
    intro n h
    unfold natToStrAux
    by_cases h10 : n < 10
    · simp only [h10, if_true]
      show natOfDigits [digitChar n] = n
      simp [natOfDigits, digitVal_digitChar h10]
    · simp only [h10, if_false]
      have hdiv : n / 10 < n := Nat.div_lt_self (by omega) (by omega)
      rw [natOfDigits_snoc, ih (by omega), digitVal_digitChar (Nat.mod_lt n (by omega))]
      omega

theorem natOfDigits_natToStr (n : Nat) : natOfDigits (natToStr n) = n :=
  natOfDigits_natToStrAux (Nat.lt_succ_self n)

theorem startsWithStr_refl_append (p x : Str) : startsWithStr p (p ++ x) = true := by
  induction p with
  | nil => rfl
  | cons c cs ih => simp [startsWithStr, ih]

theorem startsWithStr_length {p s : Str} (h : startsWithStr p s = true) :
    p.length ≤ s.length := by
  induction p generalizing s with
  | nil => simp
  | cons c cs ih =>
    cases s with
    | nil => simp [startsWithStr] at h
    | cons d ds =>
      simp only [startsWithStr, Bool.and_eq_true] at h
      have := ih h.2
      simp only [List.length_cons]
      omega

theorem startsWithStr_cons_false {q : Char} (ps : Str) {c : Char} (h : c ≠ q)
    (rest : Str) : startsWithStr (q :: ps) (c :: rest) = false := by
  simp [startsWithStr, beq_iff_eq]
  intro hqc
  exact absurd hqc.symm h

theorem takeWhile_append_all {p : Char → Bool} {d : Str}
    (hd : ∀ c ∈ d, p c = true) {x : Char} (hx : p x = false) (t : Str) :
    (d ++ x :: t).takeWhile p = d := by
  induction d with
  | nil => simp [List.takeWhile_cons, hx]
  | cons c cs ih =>
    have hc := hd c (List.mem_cons_self c cs)
    simp only [List.cons_append, List.takeWhile_cons, hc, if_true]
    rw [ih (fun e he => hd e (List.mem_cons_of_mem c he))]

theorem dropWhile_append_all {p : Char → Bool} {d : Str}
    (hd : ∀ c ∈ d, p c = true) {x : Char} (hx : p x = false) (t : Str) :
    (d ++ x :: t).dropWhile p = x :: t := by
  induction d with
  | nil => simp [List.dropWhile_cons, hx]
  | cons c cs ih =>
    have hc := hd c (List.mem_cons_self c cs)
    simp only [List.cons_append, List.dropWhile_cons, hc, if_true]
    exact ih (fun e he => hd e (List.mem_cons_of_mem c he))

theorem scanMarkers_cons (pre : Str) (handle : Str → Str) (f : Nat) (c : Char)
    (rest : Str) :
    scanMarkers pre handle (f + 1) (c :: rest) =
      if startsWithStr pre (c :: rest) then
        if ((c :: rest).drop pre.length).takeWhile Char.isDigit ≠ [] ∧
            startsWithStr closeBr
              (((c :: rest).drop pre.length).dropWhile Char.isDigit) then
          handle (((c :: rest).drop pre.length).takeWhile Char.isDigit) ++
            scanMarkers pre handle f
              ((((c :: rest).drop pre.length).dropWhile Char.isDigit).drop 2)
        else c :: scanMarkers pre handle f rest
      else c :: scanMarkers pre handle f rest := rfl

theorem length_after_marker {pre : Str} {c : Char} {rest : Str}
    (hds : ((c :: rest).drop pre.length).takeWhile Char.isDigit ≠ [])
    (hcl : startsWithStr closeBr
      (((c :: rest).drop pre.length).dropWhile Char.isDigit) = true) :
    ((((c :: rest).drop pre.length).dropWhile Char.isDigit).drop 2).length ≤
      rest.length := by
  have h1 : (((c :: rest).drop pre.length).takeWhile Char.isDigit).length +
      (((c :: rest).drop pre.length).dropWhile Char.isDigit).length =
      ((c :: rest).drop pre.length).length := by
    rw [← List.length_append, List.takeWhile_append_dropWhile]
  have h2 : ((c :: rest).drop pre.length).length ≤ rest.length + 1 := by
    rw [List.length_drop]
    simp only [List.length_cons]
    omega
  have h3 : 1 ≤ (((c :: rest).drop pre.length).takeWhile Char.isDigit).length := by
    cases hq : ((c :: rest).drop pre.length).takeWhile Char.isDigit with
    | nil => exact absurd hq hds
    | cons a b => simp
  have h4 := startsWithStr_length hcl
  simp only [List.length_drop]
  have h5 : closeBr.length = 2 := rfl
  omega

theorem scanMarkers_fuel_eq (pre : Str) (handle : Str → Str) :
    ∀ f1 : Nat, ∀ s : Str, ∀ f2 : Nat, s.length ≤ f1 → s.length ≤ f2 →
      scanMarkers pre handle f1 s = scanMarkers pre handle f2 s := by
  intro f1
  induction f1 with
  | zero =>
    intro s f2 h1 h2
    have hs : s = [] := by
      cases s with
      | nil => rfl
      | cons a b => simp at h1
    subst hs
    cases f2 <;> rfl
  | succ f ih =>
    intro s f2 h1 h2
    cases s with
    | nil => cases f2 <;> rfl
    | cons c rest =>
      cases f2 with
      | zero => simp at h2
      | succ g =>
        have hrest : rest.length ≤ f := by
          simp only [List.length_cons] at h1; omega
        have hrestg : rest.length ≤ g := by
          simp only [List.length_cons] at h2; omega
        rw [scanMarkers_cons, scanMarkers_cons]
        by_cases hsw : startsWithStr pre (c :: rest) = true
        · rw [if_pos hsw, if_pos hsw]
          by_cases hcond : ((c :: rest).drop pre.length).takeWhile Char.isDigit ≠ [] ∧
              startsWithStr closeBr
                (((c :: rest).drop pre.length).dropWhile Char.isDigit) = true
          · rw [if_pos hcond, if_pos hcond]
            have hlen := length_after_marker hcond.1 hcond.2
            rw [ih _ g (le_trans hlen hrest) (le_trans hlen hrestg)]
          · rw [if_neg hcond, if_neg hcond, ih rest g hrest hrestg]
        · rw [if_neg hsw, if_neg hsw, ih rest g hrest hrestg]

theorem scanMarkers_skip (ps : Str) (handle : Str → Str) {a : Str}
    (ha : ∀ c ∈ a, c ≠ '[') (t : Str) :
    scanMarkers ('[' :: ps) handle (a ++ t).length (a ++ t) =
      a ++ scanMarkers ('[' :: ps) handle t.length t := by
  induction a with
  | nil => rfl
  | cons c cs ih =>
    have hc : c ≠ '[' := ha c (List.mem_cons_self c cs)
    have hlen : (c :: (cs ++ t)).length = (cs ++ t).length + 1 := by simp
    simp only [List.cons_append, hlen]
    rw [scanMarkers_cons,
      if_neg (by rw [startsWithStr_cons_false ps hc]; simp),
      ih (fun e he => ha e (List.mem_cons_of_mem c he))]

theorem scanMarkers_match (ps : Str) (handle : Str → Str) {ds : Str}
    (hds : ds ≠ []) (hdig : ∀ c ∈ ds, c.isDigit = true) (b : Str) :
    scanMarkers ('[' :: ps) handle
        (('[' :: ps) ++ ds ++ closeBr ++ b).length
        (('[' :: ps) ++ ds ++ closeBr ++ b) =
      handle ds ++ scanMarkers ('[' :: ps) handle b.length b := by
  have hshape : ('[' :: ps) ++ ds ++ closeBr ++ b =
      '[' :: (ps ++ (ds ++ (']' :: ']' :: b))) := by
    show ('[' :: ps) ++ ds ++ closeBr ++ b = '[' :: (ps ++ (ds ++ (']' :: ']' :: b)))
    simp [closeBr]
  have hlen : (('[' :: ps) ++ ds ++ closeBr ++ b).length =
      (ps ++ (ds ++ (']' :: ']' :: b))).length + 1 := by
    rw [hshape]; simp
  rw [hshape] at *
  rw [hlen, scanMarkers_cons]
  have hdropfull : ('[' :: (ps ++ (ds ++ (']' :: ']' :: b)))).drop
      ('[' :: ps).length = ds ++ (']' :: ']' :: b) := by
    have : ('[' :: (ps ++ (ds ++ (']' :: ']' :: b)))) =
        ('[' :: ps) ++ (ds ++ (']' :: ']' :: b)) := by simp
    rw [this, List.drop_left]
  have hsw : startsWithStr ('[' :: ps)
      ('[' :: (ps ++ (ds ++ (']' :: ']' :: b)))) = true := by
    have : ('[' :: (ps ++ (ds ++ (']' :: ']' :: b)))) =
        ('[' :: ps) ++ (ds ++ (']' :: ']' :: b)) := by simp
    rw [this]
    exact startsWithStr_refl_append _ _
  rw [if_pos hsw, hdropfull]
  have hbr : (']' : Char).isDigit = false := by decide
  have htake : (ds ++ (']' :: ']' :: b)).takeWhile Char.isDigit = ds :=
    takeWhile_append_all hdig hbr _
  have hdrop2 : (ds ++ (']' :: ']' :: b)).dropWhile Char.isDigit = ']' :: ']' :: b :=
    dropWhile_append_all hdig hbr _
  rw [htake, hdrop2]
  have hcl : startsWithStr closeBr (']' :: ']' :: b) = true := by
    have : (']' :: ']' :: b) = closeBr ++ b := by simp [closeBr]
    rw [this]
    exact startsWithStr_refl_append _ _
  rw [if_pos ⟨hds, hcl⟩]
  have : ((']' :: ']' :: b).drop 2) = b := rfl
  rw [this]
  have hble : b.length ≤ (ps ++ (ds ++ (']' :: ']' :: b))).length := by
    simp; omega
  rw [scanMarkers_fuel_eq ('[' :: ps) handle _ b b.length hble (le_refl _)]

theorem framesRender_cons (c : Str) (cs : List Str) :
    framesRender (c :: cs) =
      kittyHdr1 ++ (if cs = [] then '0' else '1') :: ';' :: c ++ escEnd ++
        contFrames cs := rfl

theorem contFrames_cons (c : Str) (cs : List Str) :
    contFrames (c :: cs) =
      kittyHdr2 ++ (if cs = [] then '0' else '1') :: ';' :: c ++ escEnd ++
        contFrames cs := rfl

theorem kittyLoop_cons (f : Nat) (isFirst : Bool) (c : Char) (cs : Str) :
    kittyLoop (f + 1) isFirst (c :: cs) =
      (if isFirst then kittyHdr1 else kittyHdr2) ++
        (if (c :: cs).drop 4096 = [] then '0' else '1') :: ';' ::
          (c :: cs).take 4096 ++ escEnd ++ kittyLoop f false ((c :: cs).drop 4096) :=
  rfl

theorem chunksOf4096_cons (f : Nat) (c : Char) (cs : Str) :
    chunksOf4096 (f + 1) (c :: cs) =
      (c :: cs).take 4096 :: chunksOf4096 f ((c :: cs).drop 4096) := rfl

theorem drop4096_length_le {p : Str} (hp : p ≠ []) :
    (p.drop 4096).length + 1 ≤ p.length := by
  rw [List.length_drop]
  cases p with
  | nil => exact absurd rfl hp
  | cons a b => simp only [List.length_cons]; omega

theorem chunksOf4096_eq_nil_iff {fuel : Nat} {p : Str} (h : p.length ≤ fuel) :
    chunksOf4096 fuel p = [] ↔ p = [] := by
  cases fuel with
  | zero =>
    have hp : p = [] := by
      cases p with
      | nil => rfl
      | cons a b => simp at h
    subst hp; simp [chunksOf4096]
  | succ f =>
    cases p with
    | nil => simp [chunksOf4096]
    | cons a b => simp [chunksOf4096_cons]

theorem kittyLoop_eq_frames : ∀ fuel : Nat, ∀ p : Str, p.length ≤ fuel →
    kittyLoop fuel true p = framesRender (chunksOf4096 fuel p) ∧
    kittyLoop fuel false p = contFrames (chunksOf4096 fuel p) := by
  intro fuel
  induction fuel with
  | zero =>
    intro p h
    have hp : p = [] := by
      cases p with
      | nil => rfl
      | cons a b => simp at h
    subst hp
    exact ⟨rfl, rfl⟩
  | succ f ih =>
    intro p h
    cases p with
    | nil => exact ⟨rfl, rfl⟩
    | cons c cs =>
      have hne : (c :: cs) ≠ ([] : Str) := by simp
      have hrest : ((c :: cs).drop 4096).length ≤ f := by
        have h2 := drop4096_length_le hne
        simp only [List.length_cons] at h h2
        omega
      have hrec := ih _ hrest
      have hnil := chunksOf4096_eq_nil_iff hrest
      have hm : (if chunksOf4096 f ((c :: cs).drop 4096) = [] then ('0' : Char)
          else '1') = (if (c :: cs).drop 4096 = [] then ('0' : Char) else '1') := by
        by_cases hr : (c :: cs).drop 4096 = []
        · rw [if_pos hr, if_pos (hnil.mpr hr)]
        · rw [if_neg hr, if_neg (fun hh => hr (hnil.mp hh))]
      constructor
      · rw [kittyLoop_cons, chunksOf4096_cons, framesRender_cons, hm, hrec.2,
          if_pos rfl]
      · rw [kittyLoop_cons, chunksOf4096_cons, contFrames_cons, hm, hrec.2]
        rfl

theorem chunksOf4096_join : ∀ fuel : Nat, ∀ p : Str, p.length ≤ fuel →
    (chunksOf4096 fuel p).flatten = p := by
  intro fuel
  induction fuel with
  | zero =>
    intro p h
    have hp : p = [] := by
      cases p with
      | nil => rfl
      | cons a b => simp at h
    subst hp; rfl
  | succ f ih =>
    intro p h
    cases p with
    | nil => rfl
    | cons c cs =>
      have hne : (c :: cs) ≠ ([] : Str) := by simp
      have hrest : ((c :: cs).drop 4096).length ≤ f := by
        have h2 := drop4096_length_le hne
        simp only [List.length_cons] at h h2
        omega
      rw [chunksOf4096_cons, List.flatten_cons, ih _ hrest, List.take_append_drop]

theorem chunksOf4096_mem : ∀ fuel : Nat, ∀ p : Str, p.length ≤ fuel →
    ∀ c ∈ chunksOf4096 fuel p, c ≠ [] ∧ c.length ≤ 4096 := by
  intro fuel
  induction fuel with
  | zero => intro p h c hc; simp [chunksOf4096] at hc
  | succ f ih =>
    intro p h c hc
    cases p with
    | nil => simp [chunksOf4096] at hc
    | cons a b =>
      have hne : (a :: b) ≠ ([] : Str) := by simp
      have hrest : ((a :: b).drop 4096).length ≤ f := by
        have h2 := drop4096_length_le hne
        simp only [List.length_cons] at h h2
        omega
      rw [chunksOf4096_cons] at hc
      rcases List.mem_cons.mp hc with hc | hc
      · subst hc
        constructor
        · show (a :: b).take 4096 ≠ []
          simp [List.take_cons]
        · rw [List.length_take]; omega
      · exact ih _ hrest c hc

theorem chunksOf4096_dropLast : ∀ fuel : Nat, ∀ p : Str, p.length ≤ fuel →
    ∀ c ∈ (chunksOf4096 fuel p).dropLast, c.length = 4096 := by
  intro fuel
  induction fuel with
  | zero => intro p h c hc; simp [chunksOf4096] at hc
  | succ f ih =>
    intro p h c hc
    cases p with
    | nil => simp [chunksOf4096] at hc
    | cons a b =>
      have hne : (a :: b) ≠ ([] : Str) := by simp
      have hrest : ((a :: b).drop 4096).length ≤ f := by
        have h2 := drop4096_length_le hne
        simp only [List.length_cons] at h h2
        omega
      rw [chunksOf4096_cons] at hc
      by_cases hr : chunksOf4096 f ((a :: b).drop 4096) = []
      · rw [hr] at hc
        simp at hc
      · rw [List.dropLast_cons_of_ne_nil hr] at hc
        rcases List.mem_cons.mp hc with hc | hc
        · subst hc
          have hrne : (a :: b).drop 4096 ≠ [] :=
            fun hh => hr ((chunksOf4096_eq_nil_iff hrest).mpr hh)
          have hlong : 4096 < (a :: b).length := by
            by_contra hle
            exact hrne (List.drop_eq_nil_of_le (by omega))
          rw [List.length_take]
          omega
        · exact ih _ hrest c hc

theorem kittyLoop_chars : ∀ fuel : Nat, ∀ first : Bool, ∀ p : Str,
    ∀ c ∈ kittyLoop fuel first p,
      c ∈ kittyHdr1 ∨ c ∈ kittyHdr2 ∨ c = '0' ∨ c = '1' ∨ c = ';' ∨
        c ∈ escEnd ∨ c ∈ p := by
  intro fuel
  induction fuel with
  | zero => intro first p c hc; simp [kittyLoop] at hc
  | succ f ih =>
    intro first p c hc
    cases p with
    | nil => simp [kittyLoop] at hc
    | cons a b =>
      rw [kittyLoop_cons] at hc
      simp only [List.mem_append, List.mem_cons] at hc
      rcases hc with ((hc | hc | hc | hc) | hc) | hc
      · cases first with
        | true =>
          rw [if_pos rfl] at hc
          tauto
        | false =>
          rw [if_neg (by simp)] at hc
          tauto
      · by_cases hr : (a :: b).drop 4096 = []
        · rw [if_pos hr] at hc
          tauto
        · rw [if_neg hr] at hc
          tauto
      · tauto
      · have hmem : c ∈ a :: b := List.take_subset 4096 (a :: b) hc
        tauto
      · tauto
      · rcases ih false _ c hc with h | h | h | h | h | h | h
        case inr.inr.inr.inr.inr.inr =>
          have hmem : c ∈ a :: b := List.drop_subset 4096 (a :: b) h
          tauto
        all_goals tauto

theorem kittyLoop_no_bracket {fuel : Nat} {first : Bool} {p : Str}
    (hb : ∀ c ∈ p, c ≠ '[') : ∀ c ∈ kittyLoop fuel first p, c ≠ '[' := by
  intro c hc
  rcases kittyLoop_chars fuel first p c hc with h|h|h|h|h|h|h
  · intro he; subst he; exact absurd h (by decide)
  · intro he; subst he; exact absurd h (by decide)
  · subst h; decide
  · subst h; decide
  · subst h; decide
  · intro he; subst he; exact absurd h (by decide)
  · exact hb c h

theorem kittyInlineImage_eq {dh : Str → Option Nat} {ch : Nat} {p : Str}
    (hp : p ≠ []) :
    kittyInlineImage dh ch p =
      framesRender (chunks p) ++ '\n' :: imgMark (computeRows (dh p) ch) ++
        ('\n' :: []) := by
  unfold kittyInlineImage
  rw [if_neg hp, (kittyLoop_eq_frames p.length p (le_refl _)).1]
  rfl

/-- C3: for every non-empty base64 payload, the Kitty encoder splits it into
consecutive fixed-size 4096-byte chunks whose concatenation equals the
payload (all chunks nonempty and at most 4096 bytes, every chunk except the
last exactly 4096 bytes), emits the first chunk with the f=100,a=T,q=2,C=1
directives and continuation flag m equal to 1 exactly when more chunks
follow, every subsequent chunk with only the m flag (0 on the final chunk),
each chunk framed as ESC _G ... ESC backslash, and the output ends with one
image-row placeholder. -/
theorem C3_kitty_chunking (dh : Str → Option Nat) (ch : Nat) (p : Str)
    (hp : p ≠ []) :
    (chunks p).flatten = p ∧
    (∀ c ∈ chunks p, c ≠ [] ∧ c.length ≤ 4096) ∧
    (∀ c ∈ (chunks p).dropLast, c.length = 4096) ∧
    kittyInlineImage dh ch p =
      framesRender (chunks p) ++ '\n' :: imgMark (computeRows (dh p) ch) ++
        ('\n' :: []) :=
  ⟨chunksOf4096_join p.length p (le_refl _),
   chunksOf4096_mem p.length p (le_refl _),
   chunksOf4096_dropLast p.length p (le_refl _),
   kittyInlineImage_eq hp⟩

theorem C3_kitty_chunking_witness :
    (chunks (("ab").toList)).flatten = ("ab").toList ∧
    (∀ c ∈ chunks (("ab").toList), c ≠ [] ∧ c.length ≤ 4096) ∧
    (∀ c ∈ (chunks (("ab").toList)).dropLast, c.length = 4096) ∧
    kittyInlineImage (fun _ => none) 18 (("ab").toList) =
      framesRender (chunks (("ab").toList)) ++ '\n' ::
        imgMark (computeRows ((fun _ => (none : Option Nat)) (("ab").toList)) 18) ++
        ('\n' :: []) :=
  C3_kitty_chunking (fun _ => none) 18 (("ab").toList) (by decide)

/-- C5: whenever a Kitty-family detector (kitty, ghostty, wezterm, wayst,
konsole) fires, the inline-image dispatch uses the Kitty-protocol encoder,
even when an iTerm2-family detector also fires; the iTerm2 encoder is chosen
exactly when no Kitty-family detector fires and iterm2 or warp does; and with
no detector at all the dispatch returns the empty string. -/
theorem C5_dispatch_order (e : Env) (dh : Str → Option Nat) (ch : Nat) (p : Str)
    (hp : p ≠ []) :
    ((kittySupported e = true ∨ ghosttySupported e = true ∨
        weztermSupported e = true ∨ waystSupported e = true ∨
        konsoleSupported e = true) →
      encoderChoice e = ImgProto.kittyP ∧
      renderInlineImage e dh ch p = kittyInlineImage dh ch p) ∧
    (encoderChoice e = ImgProto.itermP ↔
      (¬(kittySupported e = true ∨ ghosttySupported e = true ∨
          weztermSupported e = true ∨ waystSupported e = true ∨
          konsoleSupported e = true) ∧
        (iterm2Supported e = true ∨ warpSupported e = true))) ∧
    (encoderChoice e = ImgProto.itermP →
      renderInlineImage e dh ch p = iterm2InlineImage dh ch p) ∧
    (imageProtocolSupported e = false → renderInlineImage e dh ch p = []) := by
  by_cases hKF : (kittySupported e || ghosttySupported e || weztermSupported e ||
      waystSupported e || konsoleSupported e) = true
  · have hor : kittySupported e = true ∨ ghosttySupported e = true ∨
        weztermSupported e = true ∨ waystSupported e = true ∨
        konsoleSupported e = true := by
      simpa [Bool.or_eq_true, or_assoc] using hKF
    refine ⟨fun _ => ⟨?_, ?_⟩, ?_, ?_, ?_⟩
    · unfold encoderChoice; rw [if_pos hKF]
    · unfold renderInlineImage; rw [if_neg hp, if_pos hKF]
    · refine iff_of_false ?_ ?_
      · unfold encoderChoice; rw [if_pos hKF]; decide
      · rintro ⟨hn, _⟩; exact hn hor
    · intro h
      exfalso
      unfold encoderChoice at h
      rw [if_pos hKF] at h
      exact absurd h (by decide)
    · intro h
      exfalso
      unfold imageProtocolSupported at h
      rcases hor with h1|h1|h1|h1|h1 <;> simp [h1] at h
  · have hnor : ¬(kittySupported e = true ∨ ghosttySupported e = true ∨
        weztermSupported e = true ∨ waystSupported e = true ∨
        konsoleSupported e = true) := by
      intro hor
      apply hKF
      simp only [Bool.or_eq_true, or_assoc]
      exact hor
    by_cases hIT : (iterm2Supported e || warpSupported e) = true
    · refine ⟨fun hor => absurd hor hnor, ?_, ?_, ?_⟩
      · refine iff_of_true ?_ ⟨hnor, by simpa using hIT⟩
        unfold encoderChoice
        rw [if_neg hKF, if_pos hIT]
      · intro _
        unfold renderInlineImage
        rw [if_neg hp, if_neg hKF, if_pos hIT]
      · intro h
        exfalso
        unfold imageProtocolSupported at h
        rcases (by simpa using hIT : iterm2Supported e = true ∨ warpSupported e = true)
          with h1|h1 <;> simp [h1] at h
    · refine ⟨fun hor => absurd hor hnor, ?_, ?_, ?_⟩
      · refine iff_of_false ?_ ?_
        · unfold encoderChoice
          rw [if_neg hKF, if_neg hIT]
          decide
        · rintro ⟨_, hor⟩
          apply hIT
          simp only [Bool.or_eq_true]
          exact hor
      · intro h
        exfalso
        unfold encoderChoice at h
        rw [if_neg hKF, if_neg hIT] at h
        exact absurd h (by decide)
      · intro _
        unfold renderInlineImage
        rw [if_neg hp, if_neg hKF, if_neg hIT]

/-- Environment with both a Kitty marker and an iTerm2 marker set. -/
def kittyItermEnv : Env :=
  ⟨("xterm-kitty").toList, [], [], [], ("w0t1").toList, [], [], [], [], [], [],
   [], []⟩

theorem C5_dispatch_order_witness :
    ((kittySupported kittyItermEnv = true ∨ ghosttySupported kittyItermEnv = true ∨
        weztermSupported kittyItermEnv = true ∨ waystSupported kittyItermEnv = true ∨
        konsoleSupported kittyItermEnv = true) →
      encoderChoice kittyItermEnv = ImgProto.kittyP ∧
      renderInlineImage kittyItermEnv (fun _ => none) 18 (("ab").toList) =
        kittyInlineImage (fun _ => none) 18 (("ab").toList)) ∧
    (encoderChoice kittyItermEnv = ImgProto.itermP ↔
      (¬(kittySupported kittyItermEnv = true ∨ ghosttySupported kittyItermEnv = true ∨
          weztermSupported kittyItermEnv = true ∨ waystSupported kittyItermEnv = true ∨
          konsoleSupported kittyItermEnv = true) ∧
        (iterm2Supported kittyItermEnv = true ∨ warpSupported kittyItermEnv = true))) ∧
    (encoderChoice kittyItermEnv = ImgProto.itermP →
      renderInlineImage kittyItermEnv (fun _ => none) 18 (("ab").toList) =
        iterm2InlineImage (fun _ => none) 18 (("ab").toList)) ∧
    (imageProtocolSupported kittyItermEnv = false →
      renderInlineImage kittyItermEnv (fun _ => none) 18 (("ab").toList) = []) :=
  C5_dispatch_order kittyItermEnv (fun _ => none) 18 (("ab").toList) (by decide)

/-- Claim-side query results of getTerminalCellSize, in source order. -/
def cellQueryList (qOut qIn qErr : Option (Nat × Nat))
    (tty : Option (Option (Nat × Nat))) : List Nat :=
  [cellHFromWs qOut, cellHFromWs qIn, cellHFromWs qErr] ++
    (match tty with
     | some ws => [cellHFromWs ws]
     | none => [])

/-- C6: the cell height is the first successful query among stdout, stdin,
stderr, then the tty handle, defaulting to 18 pixels; a successful decode of
height h gives ceiling of h over the cell height with a floor of one row; a
decode failure gives one row and the encoder still produces output ending in
a one-row placeholder. -/
theorem C6_rows (qOut qIn qErr : Option (Nat × Nat))
    (tty : Option (Option (Nat × Nat))) (h ch : Nat) (dh : Str → Option Nat)
    (p : Str) :
    getTerminalCellSize qOut qIn qErr tty =
      ((cellQueryList qOut qIn qErr tty).find? (fun v => decide (0 < v))).getD 18 ∧
    (0 < ch → computeRows (some h) ch = max (ceilDivSpec h ch) 1) ∧
    computeRows none ch = 1 ∧
    (p ≠ [] → dh p = none →
      kittyInlineImage dh ch p ≠ [] ∧
      kittyInlineImage dh ch p =
        kittyLoop p.length true p ++ '\n' :: imgMark 1 ++ ('\n' :: [])) := by
  refine ⟨?_, ?_, rfl, ?_⟩
  · unfold getTerminalCellSize cellQueryList
    by_cases h1 : 0 < cellHFromWs qOut
    · rw [if_pos h1]
      simp [List.find?, h1]
    · rw [if_neg h1]
      by_cases h2 : 0 < cellHFromWs qIn
      · rw [if_pos h2]
        simp only [Nat.not_lt, Nat.le_zero] at h1
        simp [List.find?, h1, h2]
      · rw [if_neg h2]
        by_cases h3 : 0 < cellHFromWs qErr
        · rw [if_pos h3]
          simp only [Nat.not_lt, Nat.le_zero] at h1 h2
          simp [List.find?, h1, h2, h3]
        · rw [if_neg h3]
          simp only [Nat.not_lt, Nat.le_zero] at h1 h2 h3
          cases tty with
          | none => simp [List.find?, h1, h2, h3]
          | some ws =>
            dsimp only
            by_cases h4 : 0 < cellHFromWs ws
            · rw [if_pos h4]
              simp [List.find?, h1, h2, h3, h4]
            · rw [if_neg h4]
              simp only [Nat.not_lt, Nat.le_zero] at h4
              simp [List.find?, h1, h2, h3, h4]
  · intro hch
    show (if (h + ch - 1) / ch < 1 then 1 else (h + ch - 1) / ch) =
      max (ceilDivSpec h ch) 1
    have hdm : ch * (h / ch) + h % ch = h := Nat.div_add_mod h ch
    have hr : h % ch < ch := Nat.mod_lt h hch
    have hkey : (h + ch - 1) / ch = ceilDivSpec h ch := by
      unfold ceilDivSpec
      by_cases hm : h % ch = 0
      · have he : h + ch - 1 = ch * (h / ch) + (ch - 1) := by omega
        rw [he, Nat.mul_add_div hch, Nat.div_eq_of_lt (by omega : ch - 1 < ch)]
        simp [hm]
      · have hmul : ch * (h / ch + 1) = ch * (h / ch) + ch := by ring
        have he : h + ch - 1 = ch * (h / ch + 1) + (h % ch - 1) := by omega
        rw [he, Nat.mul_add_div hch,
          Nat.div_eq_of_lt (by omega : h % ch - 1 < ch)]
        simp [hm]
    rw [hkey]
    rcases Nat.lt_or_ge (ceilDivSpec h ch) 1 with hlt | hge
    · rw [if_pos hlt]
      omega
    · rw [if_neg (by omega)]
      omega
  · intro hp hdec
    have heq : kittyInlineImage dh ch p =
        kittyLoop p.length true p ++ '\n' :: imgMark 1 ++ ('\n' :: []) := by
      unfold kittyInlineImage
      rw [if_neg hp, hdec]
      rfl
    refine ⟨?_, heq⟩
    rw [heq]
    simp

theorem C6_rows_witness :
    computeRows (some 20) 18 = max (ceilDivSpec 20 18) 1 ∧
    (kittyInlineImage (fun _ => none) 18 (("ab").toList) ≠ [] ∧
      kittyInlineImage (fun _ => none) 18 (("ab").toList) =
        kittyLoop (("ab").toList).length true (("ab").toList) ++ '\n' ::
          imgMark 1 ++ ('\n' :: [])) :=
  ⟨(C6_rows none none none none 20 18 (fun _ => none) (("ab").toList)).2.1
     (by decide),
   (C6_rows none none none none 20 18 (fun _ => none) (("ab").toList)).2.2.2
     (by decide) rfl⟩

/-- C7: every well-formed image-row placeholder is replaced by exactly its
parsed row count in literal newlines, a count that fails Sscanf (64-bit
overflow) or parses below one is treated as one, so every expanded
placeholder yields at least one newline and no placeholder text remains for
well-formed markers. -/
theorem C7_expand_rows (a ds b : Str) (ha : ∀ c ∈ a, c ≠ '[')
    (hds : ds ≠ []) (hdig : ∀ c ∈ ds, c.isDigit = true) :
    expandImageRowPlaceholders (a ++ (imgRowsPre ++ ds ++ closeBr) ++ b) =
      a ++ newlines (rowsOfDigits ds) ++ expandImageRowPlaceholders b ∧
    1 ≤ rowsOfDigits ds ∧
    (∀ n : Nat, 1 ≤ n → n ≤ maxInt64 → rowsOfDigits (natToStr n) = n) ∧
    rowsOfDigits (natToStr 0) = 1 := by
  refine ⟨?_, ?_, ?_, by decide⟩
  · have hpre : imgRowsPre = '[' :: (("[MATCHA_IMG_ROWS:").toList) := rfl
    have hassoc : a ++ (imgRowsPre ++ ds ++ closeBr) ++ b =
        a ++ (imgRowsPre ++ ds ++ closeBr ++ b) := by
      simp [List.append_assoc]
    unfold expandImageRowPlaceholders
    rw [hassoc, hpre,
      scanMarkers_skip (("[MATCHA_IMG_ROWS:").toList) _ ha
        ((('[' :: (("[MATCHA_IMG_ROWS:").toList)) ++ ds ++ closeBr ++ b)),
      scanMarkers_match (("[MATCHA_IMG_ROWS:").toList) _ hds hdig b,
      List.append_assoc]
  · unfold rowsOfDigits
    cases hpi : parseIntGo ds with
    | none => exact le_refl 1
    | some v =>
      dsimp only
      split <;> omega
  · intro n h1 h2
    unfold rowsOfDigits parseIntGo
    rw [natOfDigits_natToStr, if_pos h2]
    dsimp only
    rw [if_neg (by omega)]

theorem C7_expand_rows_witness :
    (expandImageRowPlaceholders
        ((("x").toList) ++ (imgRowsPre ++ (("3").toList) ++ closeBr) ++
          (("y").toList)) =
      (("x").toList) ++ newlines (rowsOfDigits (("3").toList)) ++
        expandImageRowPlaceholders (("y").toList) ∧
    1 ≤ rowsOfDigits (("3").toList) ∧
    (∀ n : Nat, 1 ≤ n → n ≤ maxInt64 → rowsOfDigits (natToStr n) = n) ∧
    rowsOfDigits (natToStr 0) = 1) :=
  C7_expand_rows (("x").toList) (("3").toList) (("y").toList)
    (by decide) (by decide) (by decide)

/-- C8 counterexample: a quote placeholder whose index digits overflow the
64-bit int names an out-of-range record, yet it is not left as literal
text: Sscanf reports an error, the index variable keeps its zero value and
record 0 is rendered instead. -/
theorem C8_quote_placeholders_cex :
    resolveQuotePlaceholders (fun s => s) (fun s => s)
        [⟨("a@b").toList, ("d").toList, ("c").toList⟩]
        (("[[MATCHA_QUOTE:9999999999999999999999]]").toList) ≠
      (("[[MATCHA_QUOTE:9999999999999999999999]]").toList) ∧
    resolveQuotePlaceholders (fun s => s) (fun s => s)
        [⟨("a@b").toList, ("d").toList, ("c").toList⟩]
        (("[[MATCHA_QUOTE:9999999999999999999999]]").toList) =
      renderQuoteBox (fun s => s) (fun s => s) (("a@b").toList) (("d").toList)
        [("c").toList] := by
  exact ⟨by decide, by decide⟩

/-- C8 amended: for every quote placeholder whose index digits fit the
64-bit int, a valid index is replaced by the quote box rendered from that
record and an out-of-range index leaves the placeholder as literal text;
the pass is a total function and never fails.  (An index overflowing the
64-bit int instead parses as 0, see the counterexample.) -/
theorem C8_quote_placeholders (headerR boxR : Str → Str)
    (quoteData : List QuoteRec) (a ds b : Str) (ha : ∀ c ∈ a, c ≠ '[')
    (hds : ds ≠ []) (hdig : ∀ c ∈ ds, c.isDigit = true)
    (hrange : natOfDigits ds ≤ maxInt64) :
    (∀ q, quoteData.get? (natOfDigits ds) = some q →
      resolveQuotePlaceholders headerR boxR quoteData
          (a ++ (quotePre ++ ds ++ closeBr) ++ b) =
        a ++ renderQuoteBox headerR boxR q.qFrom q.qDate (splitNl q.qContent) ++
          resolveQuotePlaceholders headerR boxR quoteData b) ∧
    (quoteData.length ≤ natOfDigits ds →
      resolveQuotePlaceholders headerR boxR quoteData
          (a ++ (quotePre ++ ds ++ closeBr) ++ b) =
        a ++ (quotePre ++ ds ++ closeBr) ++
          resolveQuotePlaceholders headerR boxR quoteData b) := by
  have hpre : quotePre = '[' :: (("[MATCHA_QUOTE:").toList) := rfl
  have hassoc : a ++ (quotePre ++ ds ++ closeBr) ++ b =
      a ++ (quotePre ++ ds ++ closeBr ++ b) := by
    simp [List.append_assoc]
  have hidx : (parseIntGo ds).getD 0 = natOfDigits ds := by
    unfold parseIntGo
    rw [if_pos hrange]
    rfl
  constructor
  · intro q hq
    unfold resolveQuotePlaceholders
    rw [hassoc, hpre,
      scanMarkers_skip (("[MATCHA_QUOTE:").toList) _ ha
        ((('[' :: (("[MATCHA_QUOTE:").toList)) ++ ds ++ closeBr ++ b)),
      scanMarkers_match (("[MATCHA_QUOTE:").toList) _ hds hdig b]
    dsimp only
    rw [hidx, hq]
    dsimp only
    simp [List.append_assoc]
  · intro hlen
    have hq : quoteData.get? (natOfDigits ds) = none :=
      List.get?_eq_none.mpr hlen
    unfold resolveQuotePlaceholders
    rw [hassoc, hpre,
      scanMarkers_skip (("[MATCHA_QUOTE:").toList) _ ha
        ((('[' :: (("[MATCHA_QUOTE:").toList)) ++ ds ++ closeBr ++ b)),
      scanMarkers_match (("[MATCHA_QUOTE:").toList) _ hds hdig b]
    dsimp only
    rw [hidx, hq]
    dsimp only
    rw [← hpre]
    simp [List.append_assoc]

theorem C8_quote_placeholders_witness :
    ((∀ q, [(⟨("f").toList, ("e").toList, ("g").toList⟩ : QuoteRec)].get?
          (natOfDigits (("0").toList)) = some q →
      resolveQuotePlaceholders (fun s => s) (fun s => s)
          [⟨("f").toList, ("e").toList, ("g").toList⟩]
          ((("x").toList) ++ (quotePre ++ (("0").toList) ++ closeBr) ++
            (("y").toList)) =
        (("x").toList) ++
          renderQuoteBox (fun s => s) (fun s => s) q.qFrom q.qDate
            (splitNl q.qContent) ++
          resolveQuotePlaceholders (fun s => s) (fun s => s)
            [⟨("f").toList, ("e").toList, ("g").toList⟩] (("y").toList)) ∧
    ([(⟨("f").toList, ("e").toList, ("g").toList⟩ : QuoteRec)].length ≤
        natOfDigits (("0").toList) →
      resolveQuotePlaceholders (fun s => s) (fun s => s)
          [⟨("f").toList, ("e").toList, ("g").toList⟩]
          ((("x").toList) ++ (quotePre ++ (("0").toList) ++ closeBr) ++
            (("y").toList)) =
        (("x").toList) ++ (quotePre ++ (("0").toList) ++ closeBr) ++
          resolveQuotePlaceholders (fun s => s) (fun s => s)
            [⟨("f").toList, ("e").toList, ("g").toList⟩] (("y").toList))) :=
  C8_quote_placeholders (fun s => s) (fun s => s)
    [⟨("f").toList, ("e").toList, ("g").toList⟩] (("x").toList)
    (("0").toList) (("y").toList) (by decide) (by decide) (by decide)
    (by decide)

/-- C4 counterexample: with hyperlink support detected and anchor text that
itself spells the escaped URL, the output does contain the bracket-escaped
literal URL, contradicting the claim as stated for every anchor. -/
theorem C4_hyperlink_cex :
    (("&lt;u&gt;").toList) <:+:
      hyperlinkB true (("u").toList) (("&lt;u&gt;").toList) := by
  decide

/-- C4 amended: with hyperlink support detected the output contains the
anchor text T, and when neither T nor the URL contains an ampersand it does
not contain the bracket-escaped URL; without support the output is exactly
T, one space and the entity-escaped URL in angle-bracket notation (literal
angle brackets once the replacement is re-parsed as HTML), collapsing to the
escaped URL alone, once, when T equals the URL or T is empty. -/
theorem C4_hyperlink (url text : Str) :
    (text <:+: hyperlinkB true url text) ∧
    ('&' ∉ text → '&' ∉ url →
      ¬ ((("&lt;").toList ++ url ++ ("&gt;").toList) <:+:
          hyperlinkB true url text)) ∧
    (text ≠ [] → text ≠ url →
      hyperlinkB false url text =
        text ++ (" &lt;").toList ++ url ++ ("&gt;").toList) ∧
    (text = [] ∨ text = url →
      hyperlinkB false url text =
        ("&lt;").toList ++ url ++ ("&gt;").toList) := by
  refine ⟨?_, ?_, ?_, ?_⟩
  · by_cases htext : text = []
    · subst htext
      exact ⟨[], hyperlinkB true url [], by simp⟩
    · refine ⟨("\x1b]8;;").toList ++ url ++ ('\x07' :: []),
        ("\x1b]8;;\x07").toList, ?_⟩
      unfold hyperlinkB
      rw [if_pos rfl, if_neg htext]
      simp
  · intro ht hu hinf
    have hamp : '&' ∈ (("&lt;").toList ++ url ++ ("&gt;").toList) := by
      refine List.mem_append_left _ (List.mem_append_left _ ?_)
      decide
    have hmem : '&' ∈ hyperlinkB true url text := hinf.subset hamp
    unfold hyperlinkB at hmem
    rw [if_pos rfl] at hmem
    by_cases htext : text = [] <;>
      [rw [if_pos htext] at hmem; rw [if_neg htext] at hmem] <;>
    · simp only [List.mem_append, List.mem_cons] at hmem
      rcases hmem with ((hk | hk) | hk) | hk
      · exact absurd hk (by decide)
      · exact hu hk
      · rcases hk with hk | hk
        · exact absurd hk (by decide)
        · first
          | exact hu hk
          | exact ht hk
      · exact absurd hk (by decide)
  · intro h1 h2
    unfold hyperlinkB
    rw [if_neg (by decide : ¬ (false = true)), if_neg h1, if_neg h2]
  · intro h
    unfold hyperlinkB
    rw [if_neg (by decide : ¬ (false = true))]
    rcases h with h | h
    · rw [if_pos h, if_pos rfl]
    · by_cases h1 : text = []
      · rw [if_pos h1, if_pos rfl]
      · rw [if_neg h1, if_pos h]

theorem C4_hyperlink_witness :
    ((("Click here").toList <:+:
        hyperlinkB true (("http://example.com").toList) (("Click here").toList)) ∧
    ('&' ∉ (("Click here").toList) → '&' ∉ (("http://example.com").toList) →
      ¬ ((("&lt;").toList ++ (("http://example.com").toList) ++ ("&gt;").toList) <:+:
          hyperlinkB true (("http://example.com").toList) (("Click here").toList))) ∧
    ((("Click here").toList) ≠ [] →
        (("Click here").toList) ≠ (("http://example.com").toList) →
      hyperlinkB false (("http://example.com").toList) (("Click here").toList) =
        (("Click here").toList) ++ (" &lt;").toList ++
          (("http://example.com").toList) ++ ("&gt;").toList) ∧
    ((("Click here").toList) = [] ∨
        (("Click here").toList) = (("http://example.com").toList) →
      hyperlinkB false (("http://example.com").toList) (("Click here").toList) =
        ("&lt;").toList ++ (("http://example.com").toList) ++ ("&gt;").toList)) :=
  C4_hyperlink (("http://example.com").toList) (("Click here").toList)

theorem processBody_err {Doc : Type} (ext : ExtC Doc) (raw : Str) {pe : Str}
    (hp : ext.parseDoc (markdownToHTML ext.md ((ext.qp raw).getD raw)) =
      Except.error pe) :
    processBody ext raw = Except.error (parseErrPre ++ pe) := by
  unfold processBody
  rw [hp]

theorem processBody_ok {Doc : Type} (ext : ExtC Doc) (raw : Str) {d : Doc}
    (hp : ext.parseDoc (markdownToHTML ext.md ((ext.qp raw).getD raw)) =
      Except.ok d) :
    processBody ext raw =
      Except.ok (ext.bodyR (styleQuotedReplies ext.headerR ext.boxR
        (resolveQuotePlaceholders ext.headerR ext.boxR (ext.quotes d)
          (expandImageRowPlaceholders
            (collapseNl (ext.docText d).length (ext.docText d)))))) := by
  unfold processBody
  rw [hp]

/-- Replacement of the quoted-printable reader by a successful identity
decode. -/
def withQpId {Doc : Type} (ext : ExtC Doc) : ExtC Doc :=
  { ext with qp := fun s => some s }

/-- Replacement of the markdown converter by a successful identity
conversion. -/
def withMdId {Doc : Type} (ext : ExtC Doc) : ExtC Doc :=
  { ext with md := fun s => some s }

/-- C2: processBody returns an error exactly when parsing the normalized
document fails, and the error is the parse error with the fixed prefix; a
quoted-printable decode failure behaves exactly as decoding to the raw input
unchanged; a markdown conversion failure behaves exactly as converting to
its input unchanged; in every other case the pipeline completes and returns
a rendered string. -/
theorem C2_error_propagation {Doc : Type} (ext : ExtC Doc) (raw : Str) :
    (∀ e, processBody ext raw = Except.error e ↔
      ∃ pe, ext.parseDoc (markdownToHTML ext.md ((ext.qp raw).getD raw)) =
          Except.error pe ∧ e = parseErrPre ++ pe) ∧
    (∀ d, ext.parseDoc (markdownToHTML ext.md ((ext.qp raw).getD raw)) =
        Except.ok d → ∃ s, processBody ext raw = Except.ok s) ∧
    (ext.qp raw = none → processBody ext raw = processBody (withQpId ext) raw) ∧
    (ext.md ((ext.qp raw).getD raw) = none →
      processBody ext raw = processBody (withMdId ext) raw) := by
  refine ⟨?_, ?_, ?_, ?_⟩
  · intro e
    cases hp : ext.parseDoc (markdownToHTML ext.md ((ext.qp raw).getD raw)) with
    | error pe =>
      rw [processBody_err ext raw hp]
      constructor
      · intro he
        refine ⟨pe, rfl, ?_⟩
        injection he with h
        exact h.symm
      · rintro ⟨pe2, hpe2, he⟩
        injection hpe2 with h
        rw [he, h]
    | ok d =>
      rw [processBody_ok ext raw hp]
      refine iff_of_false (by simp) ?_
      rintro ⟨pe2, hpe2, _⟩
      exact absurd hpe2 (by simp)
  · intro d hp
    exact ⟨_, processBody_ok ext raw hp⟩
  · intro hqp
    unfold processBody withQpId
    rw [hqp]
    rfl
  · intro hmd
    unfold processBody withMdId markdownToHTML
    rw [hmd]
    rfl

/-- Trivial collaborators whose parser always succeeds. -/
def extOkW : ExtC Unit :=
  ⟨fun _ => none, fun _ => none, fun _ => Except.ok (), fun _ => [],
   fun _ => [], fun s => s, fun s => s, fun s => s⟩

/-- Trivial collaborators whose parser always fails. -/
def extErrW : ExtC Unit :=
  ⟨fun _ => none, fun _ => none, fun _ => Except.error (("boom").toList),
   fun _ => [], fun _ => [], fun s => s, fun s => s, fun s => s⟩

theorem C2_error_propagation_witness :
    (∃ s, processBody extOkW (("hi").toList) = Except.ok s) ∧
    processBody extErrW (("hi").toList) =
      Except.error (parseErrPre ++ ("boom").toList) :=
  ⟨(C2_error_propagation extOkW (("hi").toList)).2.1 () rfl,
   ((C2_error_propagation extErrW (("hi").toList)).1
       (parseErrPre ++ ("boom").toList)).mpr ⟨("boom").toList, rfl, rfl⟩⟩

/-- Input of the C9 scenario. -/
def c9Input : Str :=
  ("On Jan 2, 2006 at 3:04 PM, alice@x.com wrote:\n> line one\n> line two").toList

/-- C9: on the exact scenario input the plain-text quote pass yields one
quote box whose body holds the two quoted lines stripped of their markers,
but the header fields are miscaptured: the lazy header regex splits at the
first comma, so the sender field is the text 2006 at 3:04 PM, alice@x.com
(which still contains alice@x.com) and the date field is the fragment Jan 2,
which parseDateForDisplay cannot parse and returns unreformatted, while the
full date would have been reformatted to 02:01:06 15:04. -/
theorem C9_quote_scenario (headerR boxR : Str → Str)
    (hne : headerR (("2006 at 3:04 PM, alice@x.com  Jan 2").toList) ≠ []) :
    styleQuotedReplies headerR boxR c9Input =
      boxR (headerR (("2006 at 3:04 PM, alice@x.com  Jan 2").toList) ++
        '\n' :: '\n' :: (("line one\nline two").toList)) ∧
    parseDateForDisplay (("Jan 2").toList) = (("Jan 2").toList) ∧
    parseDateForDisplay (("Jan 2, 2006 at 3:04 PM").toList) =
      (("02:01:06 15:04").toList) := by
  refine ⟨?_, by decide, by decide⟩
  have hstep : styleQuotedReplies headerR boxR c9Input =
      renderQuoteBox headerR boxR (("2006 at 3:04 PM, alice@x.com").toList)
        (("Jan 2").toList) [("line one").toList, ("line two").toList] := rfl
  rw [hstep]
  unfold renderQuoteBox quoteBoxContent
  have hhdr : quoteBoxHeader headerR (("2006 at 3:04 PM, alice@x.com").toList)
      (("Jan 2").toList) =
      headerR (("2006 at 3:04 PM, alice@x.com  Jan 2").toList) := by
    unfold quoteBoxHeader
    rw [if_pos (by decide), if_pos (by decide)]
    exact congrArg headerR (by decide)
  rw [hhdr, if_pos hne]
  rfl

theorem C9_quote_scenario_witness :
    styleQuotedReplies (fun s => 'H' :: s) (fun s => s) c9Input =
      ('H' :: (("2006 at 3:04 PM, alice@x.com  Jan 2").toList) ++
        '\n' :: '\n' :: (("line one\nline two").toList)) ∧
    parseDateForDisplay (("Jan 2").toList) = (("Jan 2").toList) ∧
    parseDateForDisplay (("Jan 2, 2006 at 3:04 PM").toList) =
      (("02:01:06 15:04").toList) :=
  C9_quote_scenario (fun s => 'H' :: s) (fun s => s) (by decide)

theorem sqrLoop_nil_empty (headerR boxR : Str → Str) (st : SQRSt)
    (hb : st.block = []) : sqrLoop headerR boxR st [] = [] := by
  simp only [sqrLoop, hb]
  rw [if_neg (by simp)]

theorem sqrLoop_step_normal (headerR boxR : Str → Str) (st : SQRSt)
    (hq : st.inQuote = false) (l : Str) (rest : List Str)
    (h1 : matchOnWrote (goTrimSpace l) = none)
    (h2 : startsWithStr ((">").toList) (goTrimSpace l) = false) :
    sqrLoop headerR boxR st (l :: rest) = l :: sqrLoop headerR boxR st rest := by
  have h2b : startsWithStr ('>' :: ([] : Str)) (goTrimSpace l) = false := h2
  simp [sqrLoop, h1, h2b, hq]

theorem sqrLoop_step_header (headerR boxR : Str → Str) (hdr : Str)
    (g : Str × Str) (rest : List Str)
    (hm : matchOnWrote (goTrimSpace hdr) = some g) :
    sqrLoop headerR boxR ⟨false, [], [], []⟩ (hdr :: rest) =
      sqrLoop headerR boxR ⟨true, g.2, parseDateForDisplay g.1, []⟩ rest := by
  simp [sqrLoop, hm]

theorem sqrLoop_step_exit (headerR boxR : Str → Str) (f d : Str) (p0 : Str)
    (rest : List Str) (h1 : matchOnWrote (goTrimSpace p0) = none)
    (h2 : startsWithStr ((">").toList) (goTrimSpace p0) = false)
    (h3 : goTrimSpace p0 ≠ []) :
    sqrLoop headerR boxR ⟨true, f, d, []⟩ (p0 :: rest) =
      p0 :: sqrLoop headerR boxR ⟨false, [], [], []⟩ rest := by
  have h2b : startsWithStr ('>' :: ([] : Str)) (goTrimSpace p0) = false := h2
  simp [sqrLoop, h1, h2b, h3]

theorem sqrLoop_normal (headerR boxR : Str → Str) (pre rest : List Str)
    (hpre : ∀ l ∈ pre, matchOnWrote (goTrimSpace l) = none ∧
      startsWithStr ((">").toList) (goTrimSpace l) = false) :
    sqrLoop headerR boxR ⟨false, [], [], []⟩ (pre ++ rest) =
      pre ++ sqrLoop headerR boxR ⟨false, [], [], []⟩ rest := by
  induction pre with
  | nil => rfl
  | cons l ls ih =>
    have h := hpre l (List.mem_cons_self l ls)
    rw [List.cons_append,
      sqrLoop_step_normal headerR boxR _ rfl l _ h.1 h.2,
      ih (fun e he => hpre e (List.mem_cons_of_mem l he)), List.cons_append]

theorem splitNl_no_newline {l : Str} (h : '\n' ∉ l) : splitNl l = [l] := by
  induction l with
  | nil => rfl
  | cons c cs ih =>
    have hc : ¬((c == '\n') = true) := by
      simp only [beq_iff_eq]
      intro he
      exact h (he ▸ List.mem_cons_self c cs)
    simp only [splitNl]
    rw [if_neg hc, ih (fun hm => h (List.mem_cons_of_mem c hm))]

theorem splitNl_append {l : Str} (h : '\n' ∉ l) (t : Str) :
    splitNl (l ++ '\n' :: t) = l :: splitNl t := by
  induction l with
  | nil =>
    simp only [List.nil_append, splitNl]
    rw [if_pos (by decide)]
  | cons c cs ih =>
    have hc : ¬((c == '\n') = true) := by
      simp only [beq_iff_eq]
      intro he
      exact h (he ▸ List.mem_cons_self c cs)
    simp only [List.cons_append, splitNl, List.append_eq]
    rw [if_neg hc, ih (fun hm => h (List.mem_cons_of_mem c hm))]

theorem splitNl_joinLines {ls : List Str} (h0 : ls ≠ [])
    (hnl : ∀ l ∈ ls, '\n' ∉ l) : splitNl (joinLines ls) = ls := by
  induction ls with
  | nil => exact absurd rfl h0
  | cons l ls2 ih =>
    cases ls2 with
    | nil => exact splitNl_no_newline (hnl l (by simp))
    | cons l2 ls3 =>
      have hj : joinLines (l :: l2 :: ls3) = l ++ '\n' :: joinLines (l2 :: ls3) :=
        rfl
      rw [hj, splitNl_append (hnl l (by simp)),
        ih (by simp) (fun e he => hnl e (List.mem_cons_of_mem l he))]

/-- C10: a line matching the quote-header pattern is consumed and never
emitted verbatim; in particular when it is followed by no quoted line (the
next line, if any, is nonblank, unquoted and not itself a header) the render
equals the render of the same text without the header line: no quote box is
produced and the header text is silently lost. -/
theorem C10_header_consumed (headerR boxR : Str → Str) (pre post : List Str)
    (hdr : Str)
    (hpre : ∀ l ∈ pre, matchOnWrote (goTrimSpace l) = none ∧
      startsWithStr ((">").toList) (goTrimSpace l) = false ∧ '\n' ∉ l)
    (hhdr : matchOnWrote (goTrimSpace hdr) ≠ none) (hhnl : '\n' ∉ hdr)
    (hpost : ∀ l ∈ post, '\n' ∉ l)
    (hp0 : ∀ p0 ∈ post.head?, matchOnWrote (goTrimSpace p0) = none ∧
      startsWithStr ((">").toList) (goTrimSpace p0) = false ∧
      goTrimSpace p0 ≠ []) :
    styleQuotedReplies headerR boxR (joinLines (pre ++ hdr :: post)) =
      styleQuotedReplies headerR boxR (joinLines (pre ++ post)) := by
  obtain ⟨g, hg⟩ : ∃ g, matchOnWrote (goTrimSpace hdr) = some g := by
    cases hm : matchOnWrote (goTrimSpace hdr) with
    | none => exact absurd hm hhdr
    | some g => exact ⟨g, rfl⟩
  unfold styleQuotedReplies
  rw [splitNl_joinLines (by simp) (by
    intro e he
    rcases List.mem_append.mp he with h | h
    · exact (hpre e h).2.2
    · rcases List.mem_cons.mp h with h | h
      · subst h; exact hhnl
      · exact hpost e h)]
  rw [sqrLoop_normal headerR boxR pre _
    (fun l hl => ⟨(hpre l hl).1, (hpre l hl).2.1⟩)]
  rw [sqrLoop_step_header headerR boxR hdr g _ hg]
  by_cases hemp : pre ++ post = []
  · have hpre0 : pre = [] := (List.append_eq_nil.mp hemp).1
    have hpost0 : post = [] := (List.append_eq_nil.mp hemp).2
    subst hpre0
    subst hpost0
    rfl
  · rw [splitNl_joinLines hemp (by
      intro e he
      rcases List.mem_append.mp he with h | h
      · exact (hpre e h).2.2
      · exact hpost e h)]
    rw [sqrLoop_normal headerR boxR pre post
      (fun l hl => ⟨(hpre l hl).1, (hpre l hl).2.1⟩)]
    cases post with
    | nil =>
      rw [sqrLoop_nil_empty headerR boxR _ rfl,
        sqrLoop_nil_empty headerR boxR _ rfl]
    | cons p0 rest =>
      have h0 := hp0 p0 (by simp)
      rw [sqrLoop_step_exit headerR boxR _ _ p0 rest h0.1 h0.2.1 h0.2.2,
        sqrLoop_step_normal headerR boxR _ rfl p0 rest h0.1 h0.2.1]

theorem C10_header_consumed_witness :
    styleQuotedReplies (fun s => s) (fun s => s)
        (joinLines [("hello").toList, ("On Jan 2, alice wrote:").toList,
          ("bye").toList]) =
      styleQuotedReplies (fun s => s) (fun s => s)
        (joinLines [("hello").toList, ("bye").toList]) := by
  have h := C10_header_consumed (fun s => s) (fun s => s)
    [("hello").toList] [("bye").toList] (("On Jan 2, alice wrote:").toList)
    (by decide) (by decide) (by decide) (by decide) (by decide)
  exact h

/-- Environment of the C1 scenario: TERM is xterm-kitty and no other
terminal marker variable is set. -/
def kittyEnv : Env :=
  ⟨("xterm-kitty").toList, [], [], [], [], [], [], [], [], [], [], [], []⟩

/-- Base64 alphabet membership. -/
def isB64Char (c : Char) : Bool :=
  c.isAlphanum || c == '+' || c == '/' || c == '='

theorem b64_ne_bracket {c : Char} (h : isB64Char c = true) : c ≠ '[' := by
  intro he
  subst he
  exact absurd h (by decide)

theorem kittyInlineImage_ne_nil {dh : Str → Option Nat} {ch : Nat} {p : Str}
    (hp : p ≠ []) : kittyInlineImage dh ch p ≠ [] := by
  unfold kittyInlineImage
  rw [if_neg hp]
  simp

theorem noLI_cons_ne {c : Char} (hc : c ≠ '[') (l : Str) :
    noLI (c :: l) = noLI l := by
  rw [noLI_cons]
  simp [hc]

theorem headIsI_append_left {x : Str} (y : Str) (hx : x ≠ []) :
    headIsI (x ++ y) = headIsI x := by
  cases x with
  | nil => exact absurd rfl hx
  | cons c cs => rw [List.cons_append, headIsI_cons, headIsI_cons]

theorem noLI_imgMark (rows : Nat) : noLI (imgMark rows) = true := by
  unfold imgMark
  rw [List.append_assoc]
  refine noLI_append (by decide) ?_ ?_
  · refine noLI_append ?_ (by decide) (by decide)
    exact noLI_of_no_bracket (fun c hc => isDigit_ne_bracket (natToStr_digits c hc))
  · rw [headIsI_append_left _ (natToStr_ne_nil rows)]
    exact headIsI_of_digits natToStr_digits

theorem noLI_kitty_out {dh : Str → Option Nat} {ch : Nat} {payload : Str}
    (hb : ∀ c ∈ payload, c ≠ '[') :
    noLI ('\n' :: (kittyInlineImage dh ch payload ++ ('\n' :: []))) = true := by
  rw [noLI_cons_ne (by decide)]
  refine noLI_append ?_ (by decide) (by decide)
  by_cases hp : payload = []
  · subst hp
    have hnil : kittyInlineImage dh ch [] = [] := by
      unfold kittyInlineImage
      rw [if_pos rfl]
    rw [hnil]
    rfl
  · unfold kittyInlineImage
    rw [if_neg hp]
    refine noLI_append ?_ (by decide) (by decide)
    refine noLI_append ?_ ?_ ?_
    · exact noLI_of_no_bracket (kittyLoop_no_bracket hb)
    · rw [noLI_cons_ne (by decide)]
      exact noLI_imgMark _
    · rw [headIsI_cons]
      decide

set_option maxRecDepth 8192 in
/-- C1: rendering an img element with src cid:img1 on a Kitty-detected
terminal (TERM xterm-kitty, no other markers) with images enabled: when the
caller-supplied inline-image list maps content-id img1 to a non-empty base64
payload, the replacement contains the Kitty escape prefix and not the
bracketed Image fallback; when the inline-image list is empty, the
replacement contains the textual image fallback (here the clickable
variant, since a Kitty terminal also supports hyperlinks) and no Kitty or
iTerm2 escape prefix. -/
theorem C1_cid_image (inline : List InlineImage) (dh : Str → Option Nat)
    (ch : Nat) (fetch : Str → Str) (payload : Str)
    (hlook : buildInlineMap inline (("img1").toList) = payload)
    (hne : payload ≠ []) (hb64 : ∀ c ∈ payload, isB64Char c = true) :
    (kittyHdr1 <:+:
      imgProcess kittyEnv dh ch fetch (some (buildInlineMap inline)) false
        (("cid:img1").toList) [] ∧
     ¬ ((("[Image:").toList) <:+:
      imgProcess kittyEnv dh ch fetch (some (buildInlineMap inline)) false
        (("cid:img1").toList) [])) ∧
    ((("[Click here to view image:").toList) <:+:
      imgProcess kittyEnv dh ch fetch (some (buildInlineMap [])) false
        (("cid:img1").toList) [] ∧
     ¬ ((("\x1b_G").toList) <:+:
      imgProcess kittyEnv dh ch fetch (some (buildInlineMap [])) false
        (("cid:img1").toList) []) ∧
     ¬ ((("\x1b]1337").toList) <:+:
      imgProcess kittyEnv dh ch fetch (some (buildInlineMap [])) false
        (("cid:img1").toList) [])) := by
  have hpay : imgPayload fetch (some (buildInlineMap inline))
      (("cid:img1").toList) = payload := by
    unfold imgPayload
    rw [if_neg (by decide), if_pos (by decide)]
    dsimp only
    rw [show goTrimSet (("<>").toList)
        (dropPre (("cid:").toList) (("cid:img1").toList)) = (("img1").toList)
      from by decide]
    exact hlook
  have hrend : renderInlineImage kittyEnv dh ch payload =
      kittyInlineImage dh ch payload := by
    unfold renderInlineImage
    rw [if_neg hne, if_pos (by decide)]
  have hsp : imgSpliced kittyEnv dh ch fetch (some (buildInlineMap inline)) false
      (("cid:img1").toList) =
      '\n' :: kittyInlineImage dh ch payload ++ ('\n' :: []) := by
    unfold imgSpliced
    rw [hpay, if_pos (by decide), if_pos hne, hrend,
      if_pos (kittyInlineImage_ne_nil hne)]
  have hout : imgProcess kittyEnv dh ch fetch (some (buildInlineMap inline)) false
      (("cid:img1").toList) [] =
      '\n' :: kittyInlineImage dh ch payload ++ ('\n' :: []) := by
    unfold imgProcess
    rw [hsp, if_pos (by simp)]
  have hout2 : imgProcess kittyEnv dh ch fetch (some (buildInlineMap [])) false
      (("cid:img1").toList) [] =
      (("\x1b]8;;cid:img1\x07\n [Click here to view image: Does not contain alt text] \n\x1b]8;;\x07").toList) :=
    rfl
  refine ⟨⟨?_, ?_⟩, ?_, ?_, ?_⟩
  · rw [hout]
    have hshape : ∃ r, kittyInlineImage dh ch payload = kittyHdr1 ++ r := by
      rw [kittyInlineImage_eq hne]
      cases hchunks : chunks payload with
      | nil =>
        exact absurd ((chunksOf4096_eq_nil_iff (le_refl _)).mp hchunks) hne
      | cons c0 cs =>
        rw [framesRender_cons]
        refine ⟨(if cs = [] then '0' else '1') :: ';' ::
          (c0 ++ (escEnd ++ (contFrames cs ++ '\n' ::
            (imgMark (computeRows (dh payload) ch) ++ ('\n' :: []))))), ?_⟩
        simp [List.append_assoc]
    obtain ⟨r, hr⟩ := hshape
    rw [hr]
    exact ⟨'\n' :: [], r ++ ('\n' :: []), by simp⟩
  · rw [hout,
      show (("[Image:").toList) = '[' :: 'I' :: (("mage:").toList) from rfl]
    exact noLI_not_infix _ (noLI_kitty_out (fun c hc => b64_ne_bracket (hb64 c hc)))
  · rw [hout2]
    decide
  · rw [hout2]
    decide
  · rw [hout2]
    decide

set_option maxRecDepth 8192 in
theorem C1_cid_image_witness :
    (kittyHdr1 <:+:
      imgProcess kittyEnv (fun _ => none) 18 (fun _ => [])
        (some (buildInlineMap [⟨("img1").toList, ("QUJD").toList⟩])) false
        (("cid:img1").toList) [] ∧
     ¬ ((("[Image:").toList) <:+:
      imgProcess kittyEnv (fun _ => none) 18 (fun _ => [])
        (some (buildInlineMap [⟨("img1").toList, ("QUJD").toList⟩])) false
        (("cid:img1").toList) [])) ∧
    ((("[Click here to view image:").toList) <:+:
      imgProcess kittyEnv (fun _ => none) 18 (fun _ => [])
        (some (buildInlineMap [])) false (("cid:img1").toList) [] ∧
     ¬ ((("\x1b_G").toList) <:+:
      imgProcess kittyEnv (fun _ => none) 18 (fun _ => [])
        (some (buildInlineMap [])) false (("cid:img1").toList) []) ∧
     ¬ ((("\x1b]1337").toList) <:+:
      imgProcess kittyEnv (fun _ => none) 18 (fun _ => [])
        (some (buildInlineMap [])) false (("cid:img1").toList) [])) :=
  C1_cid_image [⟨("img1").toList, ("QUJD").toList⟩] (fun _ => none) 18
    (fun _ => []) (("QUJD").toList) (by decide) (by decide) (by decide)
